import Mathlib

/-!
Verification of the incremental tweet-summarization pipeline
(`summarize_tweets.py`): shallow embedding of its data model and
operations, with theorems checking the specification's claims.

Conventions of the embedding:
* file modification times and record timestamps are integers on a
  microsecond grid (floats in the source): the parsed `datetime` values
  are totally ordered, the float epsilons `1e-6` / `1e-3` become the
  integer constants `1` / `1000`, and the 3600-second recency window
  becomes `3600 * 1000000`; every comparison the collector performs is
  an order comparison or addition, which the grid preserves;
* Python `dict`s keyed by path strings are association lists
  (`List (String × _)`) with first-match lookup; insertion updates the
  existing entry in place or appends a new one, as CPython dicts do;
* Python `set`s of strings are duplicate-free lists with
  membership-guarded insertion; `sorted(s)` is an insertion sort by the
  lexicographic string order;
* exceptions are `Except String _` values; external effects (HTTP
  responses, clock) are oracle parameters.
-/

namespace TweetPipeline

/-- Configuration constants from the top of `summarize_tweets.py`. -/
def CHUNK_CHAR_LIMIT : Nat := 8000

def LLM_MAX_RETRIES : Nat := 3

def LLM_RETRY_BACKOFF : ℚ := 5

def OVERALL_SUMMARY_GROUP_LIMIT : Nat := 5

/-! ## Chunker (`chunk_tweets`) and deduplicator (`deduplicate_tweets`) -/

/-- Loop of `chunk_tweets`, lines 584-599: walking the tweet list while
keeping the current chunk and its accumulated character length.  Instead
of appending each closed chunk to a `chunks` accumulator the embedding
emits it at the head of the output list; the trailing
`if current_chunk: chunks.append(current_chunk)` flush is the base case. -/
def chunkLoop (maxChars : Nat) (cur : List String) (curLen : Nat) :
    List String → List (List String)
  | [] => if cur = [] then [] else [cur]
  | tweet :: rest =>
    if cur ≠ [] ∧ curLen + tweet.length > maxChars then
      cur :: chunkLoop maxChars [tweet] tweet.length rest
    else
      chunkLoop maxChars (cur ++ [tweet]) (curLen + tweet.length) rest

/-- Embedding of `chunk_tweets` (lines 580-601). -/
def chunk_tweets (tweets : List String) (maxChars : Nat) : List (List String) :=
  if tweets = [] then [] else chunkLoop maxChars [] 0 tweets

/-- Embedding of `deduplicate_tweets` (lines 342-350): first-occurrence
order-preserving deduplication of the payload texts. -/
def deduplicate_tweets (tweets : List String) : List String :=
  tweets.dedup

/-- Summed payload length of a chunk, the quantity the Python loop tracks
in `current_length`. -/
def chunkSize (c : List String) : Nat := (c.map String.length).sum

theorem chunkSize_append (c : List String) (t : String) :
    chunkSize (c ++ [t]) = chunkSize c + t.length := by
  simp [chunkSize]

/-- Invariant of the chunking loop: provided the running chunk's recorded
length is accurate and the running chunk is empty or within budget (or a
lone oversized tweet), every emitted chunk is nonempty and within budget
or a lone oversized tweet, and the emitted chunks concatenate to the
running chunk followed by the remaining input. -/
theorem chunkLoop_spec (maxChars : Nat) :
    ∀ (rest cur : List String),
      (cur = [] ∨ chunkSize cur ≤ maxChars ∨ ∃ t, cur = [t] ∧ maxChars < t.length) →
      (∀ c ∈ chunkLoop maxChars cur (chunkSize cur) rest,
          c ≠ [] ∧ (chunkSize c ≤ maxChars ∨ ∃ t, c = [t] ∧ maxChars < t.length)) ∧
        (chunkLoop maxChars cur (chunkSize cur) rest).flatten = cur ++ rest := by
  intro rest
  induction rest with
  | nil =>
    intro cur hcur
    by_cases hc : cur = []
    · subst hc; simp [chunkLoop]
    · refine ⟨?_, ?_⟩
      · intro c hcmem
        simp only [chunkLoop, if_neg hc, List.mem_singleton] at hcmem
        subst hcmem
        rcases hcur with h | h
        · exact absurd h hc
        · exact ⟨hc, h⟩
      · simp [chunkLoop, if_neg hc]
  | cons tweet rest ih =>
    intro cur hcur
    by_cases hclose : cur ≠ [] ∧ chunkSize cur + tweet.length > maxChars
    · have hstep : chunkLoop maxChars cur (chunkSize cur) (tweet :: rest) =
          cur :: chunkLoop maxChars [tweet] tweet.length rest := by
        simp [chunkLoop, hclose]
      have htl : tweet.length = chunkSize [tweet] := by simp [chunkSize]
      have hrec := ih [tweet] (by
        by_cases hover : maxChars < tweet.length
        · exact Or.inr (Or.inr ⟨tweet, rfl, hover⟩)
        · exact Or.inr (Or.inl (by simpa [chunkSize] using Nat.le_of_not_lt hover)))
      rw [htl] at hstep
      refine ⟨?_, ?_⟩
      · intro c hcmem
        rw [hstep] at hcmem
        rcases List.mem_cons.mp hcmem with h | h
        · subst h
          refine ⟨hclose.1, ?_⟩
          rcases hcur with h | h
          · exact absurd h hclose.1
          · exact h
        · exact hrec.1 c h
      · rw [hstep]
        simp only [List.flatten_cons, hrec.2]
        simp
    · have hstep : chunkLoop maxChars cur (chunkSize cur) (tweet :: rest) =
          chunkLoop maxChars (cur ++ [tweet]) (chunkSize cur + tweet.length) rest := by
        simp only [chunkLoop, if_neg hclose]
      rw [← chunkSize_append] at hstep
      have hnew : (cur ++ [tweet]) = [] ∨ chunkSize (cur ++ [tweet]) ≤ maxChars ∨
          ∃ t, (cur ++ [tweet]) = [t] ∧ maxChars < t.length := by
        by_cases hc : cur = []
        · subst hc
          by_cases hover : maxChars < tweet.length
          · exact Or.inr (Or.inr ⟨tweet, rfl, hover⟩)
          · exact Or.inr (Or.inl (by simpa [chunkSize] using Nat.le_of_not_lt hover))
        · have hfit : ¬ chunkSize cur + tweet.length > maxChars := fun h =>
            hclose ⟨hc, h⟩
          exact Or.inr (Or.inl (by rw [chunkSize_append]; exact Nat.le_of_not_lt hfit))
      have hrec := ih (cur ++ [tweet]) hnew
      refine ⟨?_, ?_⟩
      · intro c hcmem
        rw [hstep] at hcmem
        exact hrec.1 c hcmem
      · rw [hstep, hrec.2]
        simp

/-- Claim C4: for every input sequence of records and every positive
character budget, `chunk_tweets` returns a partition of the input:
concatenating the chunks in order reproduces the input sequence exactly;
every chunk whose summed payload length exceeds the budget is a singleton
containing a single record that itself exceeds the budget (all other
chunks have summed length at most the budget); and the empty input yields
zero chunks. -/
theorem chunk_tweets_partition (tweets : List String) (budget : Nat)
    (hb : 0 < budget) :
    (chunk_tweets tweets budget).flatten = tweets ∧
      (∀ c ∈ chunk_tweets tweets budget,
        chunkSize c ≤ budget ∨ ∃ t, c = [t] ∧ budget < t.length) ∧
      chunk_tweets [] budget = [] := by
  by_cases h : tweets = []
  · subst h; simp [chunk_tweets]
  · have hspec := chunkLoop_spec budget tweets [] (Or.inl rfl)
    simp only [chunkSize, List.map_nil, List.sum_nil] at hspec
    unfold chunk_tweets
    rw [if_neg h]
    exact ⟨by simpa using hspec.2, fun c hc => (hspec.1 c hc).2, by simp [chunk_tweets]⟩

theorem chunk_tweets_partition_witness :
    0 < 3 ∧
      ((chunk_tweets ["ab", "cd", "e"] 3).flatten = ["ab", "cd", "e"] ∧
        (∀ c ∈ chunk_tweets ["ab", "cd", "e"] 3,
          chunkSize c ≤ 3 ∨ ∃ t, c = [t] ∧ 3 < t.length) ∧
        chunk_tweets [] 3 = []) :=
  ⟨by decide, chunk_tweets_partition ["ab", "cd", "e"] 3 (by decide)⟩

/-- Claim C10: for every input sequence and every budget, no chunk
returned by `chunk_tweets` is empty — each chunk in the result contains
at least one record, so the orchestrator's guard that skips empty chunks
never fires. -/
theorem chunk_tweets_chunks_nonempty (tweets : List String) (budget : Nat) :
    ∀ c ∈ chunk_tweets tweets budget, c ≠ [] := by
  intro c hc
  by_cases h : tweets = []
  · subst h; simp [chunk_tweets] at hc
  · have hspec := chunkLoop_spec budget tweets [] (Or.inl rfl)
    simp only [chunkSize, List.map_nil, List.sum_nil] at hspec
    unfold chunk_tweets at hc
    rw [if_neg h] at hc
    exact (hspec.1 c hc).1

theorem chunk_tweets_chunks_nonempty_witness :
    ["ab"] ∈ chunk_tweets ["ab", "cd"] 2 ∧ ["ab"] ≠ ([] : List String) :=
  ⟨by decide, chunk_tweets_chunks_nonempty ["ab", "cd"] 2 ["ab"] (by decide)⟩

/-! ## Hierarchical compressor (`compress_summaries_for_overall`) -/

/-- An oracle for `call_llm` as used by the compressor: given the stage
number, the 1-based group index, the total group count (the data fed to
`build_intermediate_prompt`) and the group's summaries, it returns the
compressed summary, or `none` when the call raises an exception. -/
def LlmOracle := Nat → Nat → Nat → List String → Option String

/-- Consecutive groups of at most `G` elements, mirroring
`range(0, len(current), G)` with `current[start : start + G]`
(lines 450-453). -/
def groupsOf (G : Nat) (l : List String) : List (List String) :=
  if h : l = [] ∨ G = 0 then [] else l.take G :: groupsOf G (l.drop G)
termination_by l.length
decreasing_by
  push_neg at h
  rw [List.length_drop]
  have hpos := List.length_pos.mpr h.1
  have hG := Nat.pos_of_ne_zero h.2
  omega

/-- One group's processing in a compression stage (lines 453-464): call
the oracle, and on failure substitute the verbatim blank-line
concatenation `"\n\n".join(group)` of the group's summaries. -/
def groupOutput (llm : LlmOracle) (stage groupIndex totalGroups : Nat)
    (group : List String) : String :=
  match llm stage groupIndex totalGroups group with
  | some combined => combined
  | none => String.intercalate "\n\n" group

/-- The inner `for group_index, start in enumerate(..., start=1)` loop of
one compression stage, building `next_level`. -/
def stageOutputs (llm : LlmOracle) (stage totalGroups groupIndex : Nat) :
    List (List String) → List String
  | [] => []
  | g :: rest =>
    groupOutput llm stage groupIndex totalGroups g ::
      stageOutputs llm stage totalGroups (groupIndex + 1) rest

/-- One full compression stage over `current` (lines 448-464). -/
def compressStage (llm : LlmOracle) (G stage : Nat) (current : List String) :
    List String :=
  stageOutputs llm stage ((current.length + G - 1) / G) 1 (groupsOf G current)

theorem stageOutputs_length (llm : LlmOracle) (stage totalGroups : Nat) :
    ∀ (groups : List (List String)) (groupIndex : Nat),
      (stageOutputs llm stage totalGroups groupIndex groups).length = groups.length := by
  intro groups
  induction groups with
  | nil => intro i; rfl
  | cons g rest ih => intro i; simp [stageOutputs, ih]

theorem groupsOf_length (G : Nat) (hG : 0 < G) :
    ∀ l : List String, (groupsOf G l).length = (l.length + G - 1) / G := by
  have main : ∀ (n : Nat) (l : List String), l.length ≤ n →
      (groupsOf G l).length = (l.length + G - 1) / G := by
    intro n
    induction n with
    | zero =>
      intro l hl
      have h : l = [] := List.eq_nil_of_length_eq_zero (Nat.le_zero.mp hl)
      subst h
      rw [groupsOf]
      simp only [List.length_nil, List.length, dif_pos (Or.inl rfl)]
      exact (Nat.div_eq_of_lt (by omega : 0 + G - 1 < G)).symm
    | succ n ih =>
      intro l hl
      by_cases h : l = []
      · subst h
        rw [groupsOf]
        simp only [List.length_nil, List.length, dif_pos (Or.inl rfl)]
        exact (Nat.div_eq_of_lt (by omega : 0 + G - 1 < G)).symm
      · rw [groupsOf, dif_neg (by push_neg; exact ⟨h, by omega⟩)]
        have hpos : 0 < l.length := List.length_pos.mpr h
        have hdrop : (l.drop G).length ≤ n := by
          rw [List.length_drop]; omega
        have hrec := ih (l.drop G) hdrop
        rw [List.length_cons, hrec, List.length_drop]
        have key : l.length + G - 1 = l.length - 1 + G := by omega
        rw [key, Nat.add_div_right _ hG]
        rcases Nat.lt_or_ge l.length (G + 1) with hsmall | hbig
        · have h2 : l.length - G + G - 1 = G - 1 := by omega
          rw [h2, Nat.div_eq_of_lt (by omega : G - 1 < G),
            Nat.div_eq_of_lt (by omega : l.length - 1 < G)]
        · have h2 : l.length - G + G - 1 = l.length - 1 := by omega
          rw [h2]
  exact fun l => main l.length l le_rfl

theorem compressStage_length (llm : LlmOracle) (G stage : Nat) (hG : 0 < G)
    (current : List String) :
    (compressStage llm G stage current).length = (current.length + G - 1) / G := by
  rw [compressStage, stageOutputs_length, groupsOf_length G hG]

/-- The `while len(current) > OVERALL_SUMMARY_GROUP_LIMIT` loop of
`compress_summaries_for_overall` (lines 441-468), returning the final
summary list together with the number of stages executed.  The group
limit is the parameter `G`; the extra `G ≤ 1` exit makes the function
total (with the source's constant `G = 5` it never fires: in Python a
limit below 2 would loop forever or raise). -/
def compressLoop (llm : LlmOracle) (G stage : Nat) (current : List String) :
    List String × Nat :=
  if hG : G ≤ 1 then (current, 0)
  else if hc : current.length ≤ G then (current, 0)
  else
    let res := compressLoop llm G (stage + 1) (compressStage llm G stage current)
    (res.1, res.2 + 1)
termination_by current.length
decreasing_by
  rw [compressStage_length llm G stage (by omega)]
  have h1 : current.length * 2 ≤ current.length * G :=
    Nat.mul_le_mul_left current.length (by omega)
  rw [Nat.div_lt_iff_lt_mul (by omega : 0 < G)]
  omega

/-- Embedding of `compress_summaries_for_overall` (lines 437-468). -/
def compress_summaries_for_overall (llm : LlmOracle) (summaries : List String) :
    List String :=
  (compressLoop llm OVERALL_SUMMARY_GROUP_LIMIT 1 summaries).1

/-- Number of compression stages executed by
`compress_summaries_for_overall` (the final value of `stage - 1`). -/
def compressStageCount (llm : LlmOracle) (summaries : List String) : Nat :=
  (compressLoop llm OVERALL_SUMMARY_GROUP_LIMIT 1 summaries).2

/-- Ceiling division of the summary count by `G` is at least 2 while the
count exceeds `G`. -/
theorem ceilDiv_ge_two {G n : Nat} (hG : 2 ≤ G) (hn : G < n) :
    2 ≤ (n + G - 1) / G := by
  rw [Nat.le_div_iff_mul_le (by omega : 0 < G)]
  omega

theorem ceilDiv_lt {G n : Nat} (hG : 2 ≤ G) (hn : G < n) :
    (n + G - 1) / G < n := by
  have h1 : n * 2 ≤ n * G := Nat.mul_le_mul_left n hG
  rw [Nat.div_lt_iff_lt_mul (by omega : 0 < G)]
  omega

/-- Stage-count invariant of the compression loop: starting from more
than `G` summaries, the loop executes `⌈log_G N⌉ - 1` stages. -/
theorem compressLoop_count (llm : LlmOracle) (G : Nat) (hG : 2 ≤ G) :
    ∀ (n stage : Nat) (current : List String), current.length ≤ n →
      G < current.length →
      (compressLoop llm G stage current).2 =
        Nat.clog G current.length - 1 := by
  intro n
  induction n with
  | zero => intro stage current hn hlen; omega
  | succ n ih =>
    intro stage current hn hlen
    rw [compressLoop, dif_neg (by omega : ¬ G ≤ 1),
      dif_neg (by omega : ¬ current.length ≤ G)]
    have hslen : (compressStage llm G stage current).length =
        (current.length + G - 1) / G := compressStage_length llm G stage (by omega) current
    have hm2 : 2 ≤ (current.length + G - 1) / G := ceilDiv_ge_two hG hlen
    have hmlt : (current.length + G - 1) / G < current.length := ceilDiv_lt hG hlen
    have hclog : Nat.clog G current.length =
        Nat.clog G ((current.length + G - 1) / G) + 1 :=
      Nat.clog_of_two_le (by omega) (by omega)
    by_cases hstop : (current.length + G - 1) / G ≤ G
    · have hinner : (compressLoop llm G (stage + 1) (compressStage llm G stage current)).2 = 0 := by
        rw [compressLoop, dif_neg (by omega : ¬ G ≤ 1)]
        rw [dif_pos (by rw [hslen]; exact hstop)]
      simp only [hinner, Nat.zero_add, hclog,
        Nat.clog_eq_one (by omega) hstop]
    · have hinner := ih (stage + 1) (compressStage llm G stage current)
        (by rw [hslen]; omega) (by rw [hslen]; omega)
      rw [hslen] at hinner
      simp only [hinner, hclog]
      have := Nat.clog_pos (by omega : 1 < G) (by omega : 2 ≤ (current.length + G - 1) / G)
      omega

/-- Indexing a stage's outputs: the `i`-th output comes from the `i`-th
group, with 1-based group index `gi + i`. -/
theorem stageOutputs_getD (llm : LlmOracle) (stage totalGroups : Nat) :
    ∀ (groups : List (List String)) (gi i : Nat), i < groups.length →
      (stageOutputs llm stage totalGroups gi groups).getD i "" =
        groupOutput llm stage (gi + i) totalGroups (groups.getD i []) := by
  intro groups
  induction groups with
  | nil => intro gi i hi; simp at hi
  | cons g rest ih =>
    intro gi i hi
    cases i with
    | zero => simp [stageOutputs]
    | succ i =>
      have hi' : i < rest.length := by simpa using hi
      have := ih (gi + 1) i hi'
      simp only [stageOutputs, List.getD_cons_succ]
      rw [this]
      have harith : gi + 1 + i = gi + (i + 1) := by omega
      rw [harith]

/-- An oracle that always fails, and the twelve summaries of the spec's
Scenario C. -/
def llmFailAll : LlmOracle := fun _ _ _ _ => none

def twelveSummaries : List String := List.replicate 12 "s"

/-- Claim C5, counterexample: the code's stage count for 12 summaries
with group limit 5 is 1, not `⌈log_5 12⌉ = 2` as the claim's formula
demands. -/
theorem compress_stage_count_ne_clog :
    compressStageCount llmFailAll twelveSummaries = 1 ∧
      Nat.clog OVERALL_SUMMARY_GROUP_LIMIT twelveSummaries.length = 2 := by
  constructor
  · simp [compressStageCount, twelveSummaries, compressLoop, compressStage,
      stageOutputs, groupOutput, groupsOf, llmFailAll, OVERALL_SUMMARY_GROUP_LIMIT,
      String.intercalate]
  · have h1 : Nat.clog 5 12 = Nat.clog 5 3 + 1 := by
      rw [Nat.clog_of_two_le (by omega) (by omega)]
    have h2 : Nat.clog 5 3 = 1 := Nat.clog_eq_one (by omega) (by omega)
    simp [OVERALL_SUMMARY_GROUP_LIMIT, twelveSummaries, h1, h2]

/-- Claim C5, amended: for every oracle and every group limit `G ≥ 2`,
`compress_summaries_for_overall` terminates (it is a total function),
and when `N > G` the number of compression stages it performs is
`⌈log_G N⌉ - 1`; in particular for `N = 12` and `G = 5` the spec's own
scenario holds: compression stops after one stage with exactly 3
summaries. -/
theorem compress_stage_count_eq (llm : LlmOracle) (G : Nat)
    (summaries : List String) (hG : 2 ≤ G) (hN : G < summaries.length) :
    (compressLoop llm G 1 summaries).2 = Nat.clog G summaries.length - 1 ∧
      compressStageCount llmFailAll twelveSummaries = 1 ∧
      (compress_summaries_for_overall llmFailAll twelveSummaries).length = 3 := by
  refine ⟨compressLoop_count llm G hG summaries.length 1 summaries le_rfl hN, ?_, ?_⟩
  · simp [compressStageCount, twelveSummaries, compressLoop, compressStage,
      stageOutputs, groupOutput, groupsOf, llmFailAll, OVERALL_SUMMARY_GROUP_LIMIT,
      String.intercalate]
  · simp [compress_summaries_for_overall, twelveSummaries, compressLoop, compressStage,
      stageOutputs, groupOutput, groupsOf, llmFailAll, OVERALL_SUMMARY_GROUP_LIMIT,
      String.intercalate]

theorem compress_stage_count_eq_witness :
    2 ≤ 5 ∧ 5 < (List.replicate 6 "x").length ∧
      ((compressLoop llmFailAll 5 1 (List.replicate 6 "x")).2 =
          Nat.clog 5 (List.replicate 6 "x").length - 1 ∧
        compressStageCount llmFailAll twelveSummaries = 1 ∧
        (compress_summaries_for_overall llmFailAll twelveSummaries).length = 3) :=
  ⟨by decide, by decide,
    compress_stage_count_eq llmFailAll 5 (List.replicate 6 "x") (by decide) (by decide)⟩

/-- Claim C6: in every stage of `compress_summaries_for_overall`, the
stage produces exactly one output per group (`⌈current/G⌉` outputs) no
matter which subset of the calls fails, and any group whose
summarization call raises has as its output the verbatim concatenation
of the group's input summaries joined by blank lines — never dropped. -/
theorem compress_stage_failed_groups_kept (llm : LlmOracle) (G stage : Nat)
    (current : List String) (hG : 0 < G) :
    (compressStage llm G stage current).length = (current.length + G - 1) / G ∧
      ∀ i < (groupsOf G current).length,
        llm stage (i + 1) ((current.length + G - 1) / G)
            ((groupsOf G current).getD i []) = none →
          (compressStage llm G stage current).getD i "" =
            String.intercalate "\n\n" ((groupsOf G current).getD i []) := by
  refine ⟨compressStage_length llm G stage hG current, ?_⟩
  intro i hi hfail
  rw [compressStage, stageOutputs_getD llm stage _ (groupsOf G current) 1 i hi]
  have harith : 1 + i = i + 1 := by omega
  rw [harith, groupOutput, hfail]

theorem compress_stage_failed_groups_kept_witness :
    0 < 5 ∧
      ((compressStage llmFailAll 5 1 (List.replicate 7 "y")).length =
          ((List.replicate 7 "y" : List String).length + 5 - 1) / 5 ∧
        ∀ i < (groupsOf 5 (List.replicate 7 "y")).length,
          llmFailAll 1 (i + 1) (((List.replicate 7 "y" : List String).length + 5 - 1) / 5)
              ((groupsOf 5 (List.replicate 7 "y")).getD i []) = none →
            (compressStage llmFailAll 5 1 (List.replicate 7 "y")).getD i "" =
              String.intercalate "\n\n" ((groupsOf 5 (List.replicate 7 "y")).getD i [])) :=
  ⟨by decide,
    compress_stage_failed_groups_kept llmFailAll 5 1 (List.replicate 7 "y") (by decide)⟩

/-! ## Summarization client (`call_llm`) -/

/-- Python `str.strip()`: drop leading and trailing whitespace
characters (structural model of the `content.strip()` in `call_llm`). -/
def pyStrip (s : String) : String :=
  String.mk (((s.data.dropWhile Char.isWhitespace).reverse.dropWhile
    Char.isWhitespace).reverse)

/-- Outcome of one HTTP attempt of `call_llm`: either
`requests.Timeout`/`requests.ConnectionError`, or a response with a
status code and a parsed `choices` list, each choice carrying its
message content (`none` models a missing `message`/`content` key). -/
inductive LlmOutcome where
  | netError
  | httpResponse (status : Nat) (choices : List (Option String))

/-- Result of a `call_llm` invocation: the returned content or the
raised error, the backoff sleeps performed (in order), and the number of
HTTP requests issued. -/
structure CallResult where
  result : Except String String
  sleeps : List ℚ
  requests : Nat

/-- The `for attempt in range(LLM_MAX_RETRIES)` loop of `call_llm`
(lines 539-577).  `trace` maps the attempt index to that attempt's HTTP
outcome; `remaining` counts attempts left (so `remaining = 1` is the
last attempt, Python's `attempt == LLM_MAX_RETRIES - 1`); `delay` is the
current backoff.  `requests.Response.raise_for_status` raises exactly
for status codes in `[400, 600)`.  The `remaining = 0` base case is the
unreachable `raise` after the loop. -/
def callLlmLoop (trace : Nat → LlmOutcome) : Nat → Nat → ℚ → CallResult
  | _, 0, _ => ⟨.error "max retries exceeded", [], 0⟩
  | attempt, r + 1, delay =>
    match trace attempt with
    | .netError =>
      if r = 0 then ⟨.error "timeout or connection failure", [], 1⟩
      else
        let rest := callLlmLoop trace (attempt + 1) r (delay * 2)
        ⟨rest.result, delay :: rest.sleeps, rest.requests + 1⟩
    | .httpResponse status choices =>
      if status = 429 then
        if r = 0 then ⟨.error "429 too many requests", [], 1⟩
        else
          let rest := callLlmLoop trace (attempt + 1) r (delay * 2)
          ⟨rest.result, delay :: rest.sleeps, rest.requests + 1⟩
      else if 400 ≤ status ∧ status < 600 then
        ⟨.error "http error", [], 1⟩
      else
        match choices with
        | [] => ⟨.error "empty choices", [], 1⟩
        | choice :: _ =>
          match choice with
          | none => ⟨.error "empty content", [], 1⟩
          | some content =>
            if content = "" then ⟨.error "empty content", [], 1⟩
            else ⟨.ok (pyStrip content), [], 1⟩

/-- Embedding of `call_llm` (lines 527-577): the delay starts at
`LLM_RETRY_BACKOFF` on every call. -/
def call_llm (trace : Nat → LlmOutcome) : CallResult :=
  callLlmLoop trace 0 LLM_MAX_RETRIES LLM_RETRY_BACKOFF

/-- An attempt outcome is retryable when it is a network error or an
HTTP 429 response. -/
def retryableOutcome : LlmOutcome → Prop
  | .netError => True
  | .httpResponse status _ => status = 429

/-- Shape of the loop's sleep list: starting from backoff `delay` with
`r` attempts remaining, the sleeps performed are the first `k` doubling
backoffs (`k ≤ r - 1`), each caused by a retryable outcome of the
corresponding attempt, and at most `r` requests are issued. -/
theorem callLlmLoop_sleeps (trace : Nat → LlmOutcome) :
    ∀ (r attempt : Nat) (delay : ℚ), 1 ≤ r →
      ∃ k, k + 1 ≤ r ∧
        (callLlmLoop trace attempt r delay).sleeps =
          (List.range k).map (fun i => delay * 2 ^ i) ∧
        (callLlmLoop trace attempt r delay).requests ≤ r ∧
        ∀ i < k, retryableOutcome (trace (attempt + i)) := by
  intro r
  induction r with
  | zero =>
    intro attempt delay h
    exact absurd h (by omega)
  | succ r ih =>
    intro attempt delay hr1
    have hnoretry : (callLlmLoop trace attempt (r + 1) delay).sleeps = [] →
        (callLlmLoop trace attempt (r + 1) delay).requests = 1 →
        ∃ k, k + 1 ≤ r + 1 ∧
          (callLlmLoop trace attempt (r + 1) delay).sleeps =
            (List.range k).map (fun i => delay * 2 ^ i) ∧
          (callLlmLoop trace attempt (r + 1) delay).requests ≤ r + 1 ∧
          ∀ i < k, retryableOutcome (trace (attempt + i)) := by
      intro hs hq
      refine ⟨0, by omega, ?_, ?_, fun i hi => absurd hi (by omega)⟩
      · rw [hs]; rfl
      · rw [hq]; omega
    have hretry : retryableOutcome (trace attempt) →
        (r ≠ 0) →
        (callLlmLoop trace attempt (r + 1) delay).sleeps =
          delay :: (callLlmLoop trace (attempt + 1) r (delay * 2)).sleeps →
        (callLlmLoop trace attempt (r + 1) delay).requests =
          (callLlmLoop trace (attempt + 1) r (delay * 2)).requests + 1 →
        ∃ k, k + 1 ≤ r + 1 ∧
          (callLlmLoop trace attempt (r + 1) delay).sleeps =
            (List.range k).map (fun i => delay * 2 ^ i) ∧
          (callLlmLoop trace attempt (r + 1) delay).requests ≤ r + 1 ∧
          ∀ i < k, retryableOutcome (trace (attempt + i)) := by
      intro hout hr hs hq
      obtain ⟨k, hk, hks, hkq, hkr⟩ := ih (attempt + 1) (delay * 2) (by omega)
      refine ⟨k + 1, by omega, ?_, by omega, ?_⟩
      · rw [hs, hks]
        rw [List.range_succ_eq_map]
        simp only [List.map_cons, List.map_map]
        congr 1
        · simp
        · apply List.map_congr_left
          intro i hi
          simp only [Function.comp_apply]
          rw [pow_succ]
          ring
      · intro i hi
        cases i with
        | zero => simpa using hout
        | succ i =>
          have := hkr i (by omega)
          have harith : attempt + (i + 1) = attempt + 1 + i := by omega
          rw [harith]
          exact this
    cases htr : trace attempt with
    | netError =>
      by_cases hr : r = 0
      · subst hr
        exact hnoretry (by simp [callLlmLoop, htr]) (by simp [callLlmLoop, htr])
      · exact hretry (by simp [retryableOutcome, htr]) hr
          (by simp [callLlmLoop, htr, hr]) (by simp [callLlmLoop, htr, hr])
    | httpResponse status choices =>
      by_cases h429 : status = 429
      · subst h429
        by_cases hr : r = 0
        · subst hr
          exact hnoretry (by simp [callLlmLoop, htr]) (by simp [callLlmLoop, htr])
        · exact hretry (by simp [retryableOutcome, htr]) hr
            (by simp [callLlmLoop, htr, hr]) (by simp [callLlmLoop, htr, hr])
      · by_cases herr : 400 ≤ status ∧ status < 600
        · exact hnoretry (by simp [callLlmLoop, htr, h429, herr])
            (by simp [callLlmLoop, htr, h429, herr])
        · match hch : choices with
          | [] =>
            exact hnoretry (by simp [callLlmLoop, htr, h429, herr])
              (by simp [callLlmLoop, htr, h429, herr])
          | none :: _ =>
            exact hnoretry (by simp [callLlmLoop, htr, h429, herr])
              (by simp [callLlmLoop, htr, h429, herr])
          | some content :: _ =>
            by_cases hc : content = ""
            · exact hnoretry (by simp [callLlmLoop, htr, h429, herr, hc])
                (by simp [callLlmLoop, htr, h429, herr, hc])
            · exact hnoretry (by simp [callLlmLoop, htr, h429, herr, hc])
                (by simp [callLlmLoop, htr, h429, herr, hc])

/-- Concrete attempt traces: a server error, a 2xx response with an
empty `choices` list, and a 300 response with a valid payload. -/
def trace500 : Nat → LlmOutcome := fun _ => .httpResponse 500 []

def trace200Empty : Nat → LlmOutcome := fun _ => .httpResponse 200 []

def trace300Ok : Nat → LlmOutcome := fun _ => .httpResponse 300 [some "ok"]

/-- Claim C7, counterexample: a response with status 300 — non-2xx and
not 429 — whose payload carries content makes `call_llm` return that
content successfully instead of failing: `raise_for_status` only raises
for statuses in `[400, 600)`, so "fails immediately on any non-2xx
response other than 429" does not hold. -/
theorem call_llm_succeeds_on_status_300 :
    (call_llm trace300Ok).result = Except.ok "ok" ∧
      (call_llm trace300Ok).sleeps = [] ∧ (call_llm trace300Ok).requests = 1 := by
  refine ⟨?_, rfl, rfl⟩
  show Except.ok (pyStrip "ok") = Except.ok "ok"
  rw [show pyStrip "ok" = "ok" from by decide]

/-- Claim C7, amended: `call_llm` fails immediately — performing no
retry and no backoff sleep — on any HTTP response with status in
`[400, 600)` other than 429, and on a 2xx response whose choices list is
empty or whose message content is empty or missing; in every call the
sleeps performed form the doubling sequence `5·2^i` starting afresh from
the base backoff, one per retryable failure (timeout, connection failure
or HTTP 429) of the corresponding attempt, with at most
`LLM_MAX_RETRIES` requests issued. -/
theorem call_llm_retry_policy :
    (∀ (trace : Nat → LlmOutcome) (status : Nat) (choices : List (Option String)),
      trace 0 = .httpResponse status choices → 400 ≤ status → status < 600 →
        status ≠ 429 →
        (call_llm trace).sleeps = [] ∧ (call_llm trace).requests = 1 ∧
          ∃ e, (call_llm trace).result = Except.error e) ∧
    (∀ (trace : Nat → LlmOutcome) (status : Nat) (choices : List (Option String)),
      trace 0 = .httpResponse status choices → 200 ≤ status → status < 300 →
        (choices = [] ∨ (∃ rest, choices = none :: rest) ∨
          (∃ rest, choices = some "" :: rest)) →
        (call_llm trace).sleeps = [] ∧ (call_llm trace).requests = 1 ∧
          ∃ e, (call_llm trace).result = Except.error e) ∧
    (∀ trace : Nat → LlmOutcome,
      ∃ k, k + 1 ≤ LLM_MAX_RETRIES ∧
        (call_llm trace).sleeps =
          (List.range k).map (fun i => LLM_RETRY_BACKOFF * 2 ^ i) ∧
        (call_llm trace).requests ≤ LLM_MAX_RETRIES ∧
        ∀ i < k, retryableOutcome (trace i)) := by
  refine ⟨?_, ?_, ?_⟩
  · intro trace status choices htr h4 h6 h429
    have hcall : call_llm trace = ⟨.error "http error", [], 1⟩ := by
      simp [call_llm, LLM_MAX_RETRIES, callLlmLoop, htr, h429,
        (⟨h4, h6⟩ : 400 ≤ status ∧ status < 600)]
    rw [hcall]
    exact ⟨rfl, rfl, _, rfl⟩
  · intro trace status choices htr h2 h3 hbad
    have h429 : ¬ status = 429 := by omega
    have herr : ¬ (400 ≤ status ∧ status < 600) := by omega
    rcases hbad with h | ⟨rest, h⟩ | ⟨rest, h⟩ <;> subst h
    · have hcall : call_llm trace = ⟨.error "empty choices", [], 1⟩ := by
        simp [call_llm, LLM_MAX_RETRIES, callLlmLoop, htr, h429, herr]
      rw [hcall]
      exact ⟨rfl, rfl, _, rfl⟩
    · have hcall : call_llm trace = ⟨.error "empty content", [], 1⟩ := by
        simp [call_llm, LLM_MAX_RETRIES, callLlmLoop, htr, h429, herr]
      rw [hcall]
      exact ⟨rfl, rfl, _, rfl⟩
    · have hcall : call_llm trace = ⟨.error "empty content", [], 1⟩ := by
        simp [call_llm, LLM_MAX_RETRIES, callLlmLoop, htr, h429, herr]
      rw [hcall]
      exact ⟨rfl, rfl, _, rfl⟩
  · intro trace
    obtain ⟨k, hk, hs, hq, hr⟩ :=
      callLlmLoop_sleeps trace LLM_MAX_RETRIES 0 LLM_RETRY_BACKOFF
        (by simp [LLM_MAX_RETRIES])
    exact ⟨k, hk, hs, hq, fun i hi => by simpa using hr i hi⟩

theorem call_llm_retry_policy_witness :
    (trace500 0 = .httpResponse 500 [] ∧
      (call_llm trace500).sleeps = [] ∧ (call_llm trace500).requests = 1 ∧
        ∃ e, (call_llm trace500).result = Except.error e) ∧
    (trace200Empty 0 = .httpResponse 200 [] ∧
      (call_llm trace200Empty).sleeps = [] ∧
        (call_llm trace200Empty).requests = 1 ∧
        ∃ e, (call_llm trace200Empty).result = Except.error e) :=
  ⟨⟨rfl, call_llm_retry_policy.1 trace500 500 [] rfl (by omega) (by omega)
      (by omega)⟩,
    ⟨rfl, call_llm_retry_policy.2.1 trace200Empty 200 [] rfl (by omega)
      (by omega) (Or.inl rfl)⟩⟩

/-! ## Persisted state loading (`load_state`) -/

/-- Parsed JSON documents as produced by `json.loads`: numbers keep the
int/float distinction Python makes (`isinstance(x, int)` matters in
`load_state`), objects are key-ordered association lists. -/
inductive Json where
  | null
  | bool (b : Bool)
  | jint (n : Int)
  | jfloat (q : ℚ)
  | str (s : String)
  | arr (items : List Json)
  | obj (fields : List (String × Json))

/-- `dict.get(key, default)` on a parsed JSON object. -/
def objGet (fields : List (String × Json)) (key : String) (dflt : Json) : Json :=
  match fields.lookup key with
  | some v => v
  | none => dflt

/-- `d[key] = v` on a string-keyed Python dict: update the existing
entry in place, or append a new one, as CPython dicts do. -/
def objSet {β : Type} (fields : List (String × β)) (key : String) (v : β) :
    List (String × β) :=
  if (fields.lookup key).isSome then
    fields.map (fun e => if e.1 = key then (key, v) else e)
  else fields ++ [(key, v)]

/-- Python truthiness of a parsed JSON value. -/
def pyTruthy : Json → Bool
  | .null => false
  | .bool b => b
  | .jint n => decide (n ≠ 0)
  | .jfloat q => decide (q ≠ 0)
  | .str s => decide (s ≠ "")
  | .arr l => !l.isEmpty
  | .obj l => !l.isEmpty

/-- Python `str()` of a parsed JSON value.  The exact rendering of
floats and containers is irrelevant to every claim (only emptiness and
string-ness matter); placeholders are used for containers. -/
def pyStr : Json → String
  | .null => "None"
  | .bool true => "True"
  | .bool false => "False"
  | .jint n => toString n
  | .jfloat q => toString q
  | .str s => s
  | .arr _ => "[...]"
  | .obj _ => "(...)"

/-- Python `int(x)` on a parsed JSON value: ints and bools pass through,
floats truncate toward zero, integer-literal strings parse, everything
else raises `TypeError`/`ValueError`.  (Python also accepts no other
string forms for `int`.) -/
def pyInt : Json → Except String Int
  | .jint n => .ok n
  | .bool b => .ok (if b then 1 else 0)
  | .jfloat q => .ok (q.num.tdiv (q.den : Int))
  | .str s =>
    match (pyStrip s).toInt? with
    | some n => .ok n
    | none => .error "ValueError: int"
  | _ => .error "TypeError: int"

/-- Python `float(x)` on a parsed JSON value.  Numeric strings with a
fractional part, which Python's `float` would accept, never occur in
this artifact and are conservatively modelled as errors alongside the
genuinely raising shapes. -/
def pyFloat : Json → Except String ℚ
  | .jfloat q => .ok q
  | .jint n => .ok (n : ℚ)
  | .bool b => .ok (if b then 1 else 0)
  | .str s =>
    match (pyStrip s).toInt? with
    | some n => .ok (n : ℚ)
    | none => .error "ValueError: float"
  | _ => .error "TypeError: float"

/-- Normalization of one per-path cursor entry (lines 101-111 of
`load_state`): object entries convert their `processed_rows`/`mtime`
fields with `int`/`float`, bare ints (including bools, which Python
counts as ints) become row counts, anything else becomes zero. -/
def normalizeInfo : Json → Except String Json
  | .obj f =>
    match pyInt (objGet f "processed_rows" (.jint 0)) with
    | .error e => .error e
    | .ok rows =>
      match pyFloat (objGet f "mtime" (.jfloat 0)) with
      | .error e => .error e
      | .ok mt => .ok (.obj [("processed_rows", .jint rows), ("mtime", .jfloat mt)])
  | .jint n => .ok (.obj [("processed_rows", .jint n), ("mtime", .jfloat 0)])
  | .bool b =>
    .ok (.obj [("processed_rows", .jint (if b then 1 else 0)), ("mtime", .jfloat 0)])
  | _ => .ok (.obj [("processed_rows", .jint 0), ("mtime", .jfloat 0)])

/-- Keys of the legacy list shape of `processed_files`
(`{path: ... for path in processed}`, lines 96-98).  CPython uses the
raw element as the dict key, raising only on unhashable elements; string
paths — the only shape this artifact ever contained — are modelled,
other element types are mapped to errors. -/
def pathKey : Json → Except String String
  | .str s => .ok s
  | _ => .error "unsupported path element"

def normalizePathsList : List Json → Except String (List (String × Json))
  | [] => .ok []
  | p :: rest =>
    match pathKey p with
    | .error e => .error e
    | .ok k =>
      match normalizePathsList rest with
      | .error e => .error e
      | .ok tail =>
        .ok ((k, Json.obj [("processed_rows", .jint 0), ("mtime", .jfloat 0)]) :: tail)

def normalizeEntries : List (String × Json) → Except String (List (String × Json))
  | [] => .ok []
  | (k, info) :: rest =>
    match normalizeInfo info with
    | .error e => .error e
    | .ok v =>
      match normalizeEntries rest with
      | .error e => .error e
      | .ok tail => .ok ((k, v) :: tail)

/-- Normalization of the whole `processed_files` value (lines 94-114):
a legacy list of paths becomes zeroed cursors, a dict is entry-wise
normalized, anything else becomes `{}`. -/
def normalizeProcessed (processed : Json) : Except String Json :=
  match processed with
  | .arr paths =>
    match normalizePathsList paths with
    | .error e => .error e
    | .ok entries => .ok (.obj entries)
  | .obj entries =>
    match normalizeEntries entries with
    | .error e => .error e
    | .ok out => .ok (.obj out)
  | _ => .ok (.obj [])

/-- The `last_info` dict of `load_state` (lines 116-118): the stored
`last_processed` value when it is a dict, else `{}`. -/
def lastFieldsOf (fields : List (String × Json)) : List (String × Json) :=
  match objGet fields "last_processed" .null with
  | .obj f => f
  | _ => []

/-- Timestamp normalization (lines 120-124): strings are stripped, other
truthy values are stringified and stripped, falsy values become `""`. -/
def timestampStrOf (lastFields : List (String × Json)) : String :=
  match objGet lastFields "timestamp" (.str "") with
  | .str s => pyStrip s
  | v => if pyTruthy v then pyStrip (pyStr v) else ""

/-- Normalization of the `ids`/`texts` fields (lines 126-140): lists map
to their non-empty stringifications, scalar strings and ints (including
bools, which Python counts as ints) become singletons, all else `[]`. -/
def strListOf (raw : Json) : List String :=
  match raw with
  | .arr items => (items.map pyStr).filter (fun s => s ≠ "")
  | .str s => [s]
  | .jint n => [toString n]
  | .bool b => [pyStr (.bool b)]
  | _ => []

/-- `last_processed_file_mtime` normalization (lines 148-153): `float()`
of the stored value, with `TypeError`/`ValueError` mapped to `0.0`. -/
def lastFileMtimeOf (fields : List (String × Json)) : ℚ :=
  match pyFloat (objGet fields "last_processed_file_mtime" (.jfloat 0)) with
  | .ok q => q
  | .error _ => 0

/-- The remaining, non-raising part of `load_state` (lines 116-155):
store the normalized `processed_files`, `last_processed` and
`last_processed_file_mtime` back into the state object. -/
def loadStateFinish (fields : List (String × Json))
    (normalizedProcessed : Json) : Json :=
  .obj (objSet (objSet (objSet fields "processed_files" normalizedProcessed)
      "last_processed"
      (.obj [("timestamp", .str (timestampStrOf (lastFieldsOf fields))),
             ("ids", .arr ((strListOf (objGet (lastFieldsOf fields) "ids"
               (.arr []))).map Json.str)),
             ("texts", .arr ((strListOf (objGet (lastFieldsOf fields) "texts"
               (.arr []))).map Json.str))]))
    "last_processed_file_mtime" (.jfloat (lastFileMtimeOf fields)))

/-- Embedding of `load_state` (lines 86-155) on a parsed state document.
A missing state file returns early before any of this code runs, and a
`json.JSONDecodeError` replaces the document by `{}` (`Json.obj []`),
which is covered by the `obj` case.  A non-object top level hits
`state.get` and raises `AttributeError`. -/
def load_state (doc : Json) : Except String Json :=
  match doc with
  | .obj fields =>
    match normalizeProcessed (objGet fields "processed_files" (.obj [])) with
    | .error e => .error e
    | .ok np => .ok (loadStateFinish fields np)
  | _ => .error "AttributeError: get on non-dict state"

/-- The normalized-schema predicate the claim asserts of `load_state`'s
result: `processed_files` maps paths to objects with exactly an integer
`processed_rows` and a float `mtime`; `last_processed` has a string
timestamp and string-list ids and texts; `last_processed_file_mtime` is
a float. -/
def isNormalizedInfo : Json → Bool
  | .obj [("processed_rows", .jint _), ("mtime", .jfloat _)] => true
  | _ => false

def isStrList : List Json → Bool
  | [] => true
  | .str _ :: rest => isStrList rest
  | _ => false

def isNormalized : Json → Bool
  | .obj fields =>
    (match fields.lookup "processed_files" with
     | some (.obj entries) => entries.all (fun e => isNormalizedInfo e.2)
     | _ => false) &&
    (match fields.lookup "last_processed" with
     | some (.obj [("timestamp", .str _), ("ids", .arr ids), ("texts", .arr texts)]) =>
       isStrList ids && isStrList texts
     | _ => false) &&
    (match fields.lookup "last_processed_file_mtime" with
     | some (.jfloat _) => true
     | _ => false)
  | _ => false

def isOkE {α : Type} : Except String α → Bool
  | .ok _ => true
  | .error _ => false

/-- The `processed_files` shapes on which `load_state` cannot raise:
anything other than a list or dict, a list of string paths, or a dict
whose object-shaped entries carry int-convertible `processed_rows` and
float-convertible `mtime`. -/
def infoSafe : Json → Bool
  | .obj f =>
    isOkE (pyInt (objGet f "processed_rows" (.jint 0))) &&
      isOkE (pyFloat (objGet f "mtime" (.jfloat 0)))
  | _ => true

def processedSafe : Json → Bool
  | .arr paths => paths.all (fun p => match p with | .str _ => true | _ => false)
  | .obj entries => entries.all (fun e => infoSafe e.2)
  | _ => true

def loadSafe : Json → Bool
  | .obj fields => processedSafe (objGet fields "processed_files" (.obj []))
  | _ => false

theorem lookup_append_self {β : Type} (k : String) (v : β) :
    ∀ m : List (String × β), m.lookup k = none →
      (m ++ [(k, v)]).lookup k = some v := by
  intro m
  induction m with
  | nil => intro _; simp [List.lookup]
  | cons e t ih =>
    obtain ⟨e1, e2⟩ := e
    intro h
    rw [List.cons_append]
    cases hke : (k == e1) with
    | true =>
      exfalso
      simp only [List.lookup, hke] at h
      exact Option.noConfusion h
    | false =>
      simp only [List.lookup, hke] at h ⊢
      exact ih h
theorem lookup_map_self {β : Type} (k : String) (v : β) :
    ∀ m : List (String × β), (m.lookup k).isSome →
      ((m.map (fun e => if e.1 = k then (k, v) else e)).lookup k) = some v := by
  intro m
  induction m with
  | nil => intro h; simp [List.lookup] at h
  | cons e t ih =>
    obtain ⟨e1, e2⟩ := e
    intro h
    by_cases he : e1 = k
    · subst he
      have hmap : List.map (fun e : String × β => if e.1 = e1 then (e1, v) else e)
          ((e1, e2) :: t) =
          (e1, v) :: List.map (fun e : String × β => if e.1 = e1 then (e1, v) else e) t := by
        simp
      rw [hmap]
      simp [List.lookup]
    · have hk : (k == e1) = false := by
        simp only [beq_eq_false_iff_ne]
        exact fun hh => he hh.symm
      have hmap : List.map (fun e : String × β => if e.1 = k then (k, v) else e)
          ((e1, e2) :: t) =
          (e1, e2) :: List.map (fun e : String × β => if e.1 = k then (k, v) else e) t := by
        simp [he]
      rw [hmap]
      simp only [List.lookup, hk, Bool.false_eq_true, if_false]
      apply ih
      simpa [List.lookup, hk] using h
/-- Updating key `key` leaves it looked-up as the new value. -/
theorem lookup_objSet_self {β : Type} (m : List (String × β)) (key : String) (v : β) :
    (objSet m key v).lookup key = some v := by
  unfold objSet
  by_cases h : (m.lookup key).isSome
  · rw [if_pos h]
    exact lookup_map_self key v m h
  · rw [if_neg h]
    apply lookup_append_self
    cases hm : m.lookup key with
    | none => rfl
    | some w => rw [hm] at h; simp at h

/-- Updating key `key` does not change the lookup of a different key. -/
theorem lookup_objSet_ne {β : Type} (m : List (String × β)) (key k : String) (v : β)
    (hk : k ≠ key) : (objSet m key v).lookup k = m.lookup k := by
  have hkk : (k == key) = false := by simp [hk]
  unfold objSet
  by_cases h : (m.lookup key).isSome
  · rw [if_pos h]
    clear h
    induction m with
    | nil => rfl
    | cons e t ih =>
      obtain ⟨e1, e2⟩ := e
      by_cases he : e1 = key
      · subst he
        have hmap : List.map (fun e : String × β => if e.1 = e1 then (e1, v) else e)
            ((e1, e2) :: t) =
            (e1, v) :: List.map (fun e : String × β => if e.1 = e1 then (e1, v) else e) t := by
          simp
        rw [hmap]
        simp only [List.lookup, hkk, Bool.false_eq_true, if_false, ih]
      · have hmap : List.map (fun e : String × β => if e.1 = key then (key, v) else e)
            ((e1, e2) :: t) =
            (e1, e2) :: List.map (fun e : String × β => if e.1 = key then (key, v) else e) t := by
          simp [he]
        rw [hmap]
        simp only [List.lookup, ih]
  · rw [if_neg h]
    clear h
    induction m with
    | nil => simp [List.lookup, hkk]
    | cons e t ih =>
      obtain ⟨e1, e2⟩ := e
      simp only [List.cons_append, List.lookup, List.append_eq, ih]

theorem isStrList_map (l : List String) : isStrList (l.map Json.str) = true := by
  induction l with
  | nil => rfl
  | cons a t ih => simpa [isStrList] using ih

theorem normalizeInfo_ok (info : Json) (h : infoSafe info = true) :
    ∃ v, normalizeInfo info = .ok v ∧ isNormalizedInfo v = true := by
  cases info with
  | obj f =>
    simp only [infoSafe, Bool.and_eq_true] at h
    cases hpi : pyInt (objGet f "processed_rows" (.jint 0)) with
    | error e => rw [hpi] at h; simp [isOkE] at h
    | ok rows =>
      cases hpf : pyFloat (objGet f "mtime" (.jfloat 0)) with
      | error e => rw [hpf] at h; simp [isOkE] at h
      | ok mt =>
        exact ⟨.obj [("processed_rows", .jint rows), ("mtime", .jfloat mt)],
          by simp [normalizeInfo, hpi, hpf], rfl⟩
  | jint n =>
    exact ⟨.obj [("processed_rows", .jint n), ("mtime", .jfloat 0)], rfl, rfl⟩
  | bool b =>
    cases b with
    | true => exact ⟨.obj [("processed_rows", .jint 1), ("mtime", .jfloat 0)], rfl, rfl⟩
    | false => exact ⟨.obj [("processed_rows", .jint 0), ("mtime", .jfloat 0)], rfl, rfl⟩
  | null =>
    exact ⟨.obj [("processed_rows", .jint 0), ("mtime", .jfloat 0)], rfl, rfl⟩
  | jfloat q =>
    exact ⟨.obj [("processed_rows", .jint 0), ("mtime", .jfloat 0)], rfl, rfl⟩
  | str s =>
    exact ⟨.obj [("processed_rows", .jint 0), ("mtime", .jfloat 0)], rfl, rfl⟩
  | arr l =>
    exact ⟨.obj [("processed_rows", .jint 0), ("mtime", .jfloat 0)], rfl, rfl⟩

theorem normalizeEntries_ok :
    ∀ entries : List (String × Json), (∀ e ∈ entries, infoSafe e.2 = true) →
      ∃ out, normalizeEntries entries = .ok out ∧
        out.all (fun e => isNormalizedInfo e.2) = true := by
  intro entries
  induction entries with
  | nil => intro _; exact ⟨[], rfl, rfl⟩
  | cons e t ih =>
    intro h
    obtain ⟨v, hv, hvn⟩ := normalizeInfo_ok e.2 (h e (List.mem_cons_self e t))
    obtain ⟨out, hout, houtn⟩ := ih (fun x hx => h x (List.mem_cons_of_mem e hx))
    refine ⟨(e.1, v) :: out, ?_, ?_⟩
    · show normalizeEntries ((e.1, e.2) :: t) = _
      simp [normalizeEntries, hv, hout]
    · simp only [List.all_cons, Bool.and_eq_true]
      exact ⟨hvn, houtn⟩

theorem normalizePathsList_ok :
    ∀ paths : List Json,
      (paths.all (fun p => match p with | .str _ => true | _ => false)) = true →
      ∃ out, normalizePathsList paths = .ok out ∧
        out.all (fun e => isNormalizedInfo e.2) = true := by
  intro paths
  induction paths with
  | nil => intro _; exact ⟨[], rfl, rfl⟩
  | cons p t ih =>
    intro h
    simp only [List.all_cons, Bool.and_eq_true] at h
    obtain ⟨out, hout, houtn⟩ := ih h.2
    cases p with
    | str s =>
      refine ⟨(s, Json.obj [("processed_rows", .jint 0), ("mtime", .jfloat 0)]) :: out,
        ?_, ?_⟩
      · simp [normalizePathsList, pathKey, hout]
      · simp only [List.all_cons, Bool.and_eq_true]
        exact ⟨rfl, houtn⟩
    | null => simp at h
    | bool b => simp at h
    | jint n => simp at h
    | jfloat q => simp at h
    | arr l => simp at h
    | obj f => simp at h

theorem normalizeProcessed_ok (p : Json) (h : processedSafe p = true) :
    ∃ entries, normalizeProcessed p = .ok (.obj entries) ∧
      entries.all (fun e => isNormalizedInfo e.2) = true := by
  cases p with
  | arr paths =>
    obtain ⟨out, hout, houtn⟩ := normalizePathsList_ok paths (by simpa [processedSafe] using h)
    exact ⟨out, by simp [normalizeProcessed, hout], houtn⟩
  | obj entries =>
    have h' : ∀ e ∈ entries, infoSafe e.2 = true := by
      simpa [processedSafe, List.all_eq_true] using h
    obtain ⟨out, hout, houtn⟩ := normalizeEntries_ok entries h'
    exact ⟨out, by simp [normalizeProcessed, hout], houtn⟩
  | null => exact ⟨[], rfl, rfl⟩
  | bool b => exact ⟨[], rfl, rfl⟩
  | jint n => exact ⟨[], rfl, rfl⟩
  | jfloat q => exact ⟨[], rfl, rfl⟩
  | str s => exact ⟨[], rfl, rfl⟩

theorem loadStateFinish_normalized (fields : List (String × Json))
    (entries : List (String × Json))
    (hentries : entries.all (fun e => isNormalizedInfo e.2) = true) :
    isNormalized (loadStateFinish fields (.obj entries)) = true := by
  simp only [loadStateFinish, isNormalized]
  rw [lookup_objSet_ne _ _ _ _
      (by decide : "processed_files" ≠ "last_processed_file_mtime"),
    lookup_objSet_ne _ _ _ _ (by decide : "processed_files" ≠ "last_processed"),
    lookup_objSet_self,
    lookup_objSet_ne _ _ _ _
      (by decide : "last_processed" ≠ "last_processed_file_mtime"),
    lookup_objSet_self,
    lookup_objSet_self]
  simp [hentries, isStrList_map]

/-- Claim C8, counterexample: `load_state` does raise on some stored
JSON documents.  A non-object top level (here `[]`) hits `state.get`
and raises `AttributeError`; an object whose cursor entry has a
non-convertible `processed_rows` (here `null`) raises `TypeError`
inside `int(...)`. -/
theorem load_state_raises_cases :
    (∃ e, load_state (Json.arr []) = .error e) ∧
      (∃ e, load_state (Json.obj [("processed_files",
          Json.obj [("a", Json.obj [("processed_rows", Json.null)])])]) =
        .error e) :=
  ⟨⟨_, rfl⟩, ⟨_, rfl⟩⟩

/-- Claim C8, amended: for every JSON document whose top level is an
object — including older or degenerate shapes such as `processed_files`
given as a list of (string) paths, cursor entries given as bare
integers, missing keys, non-dict `last_processed` and scalar ids/texts —
provided object-shaped cursor entries have int/float-convertible
`processed_rows` and `mtime`, `load_state` returns without raising a
state whose `processed_files` is a mapping of path to
`{processed_rows: int, mtime: float}`, whose `last_processed` has a
string timestamp and string-lists ids and texts, and whose
`last_processed_file_mtime` is a float. -/
theorem load_state_normalizes (doc : Json) (hsafe : loadSafe doc = true) :
    ∃ out, load_state doc = .ok out ∧ isNormalized out = true := by
  cases doc with
  | obj fields =>
    obtain ⟨entries, hnp, hall⟩ :=
      normalizeProcessed_ok (objGet fields "processed_files" (.obj []))
        (by simpa [loadSafe] using hsafe)
    refine ⟨loadStateFinish fields (.obj entries), ?_, ?_⟩
    · simp [load_state, hnp]
    · exact loadStateFinish_normalized fields entries hall
  | null => simp [loadSafe] at hsafe
  | bool b => simp [loadSafe] at hsafe
  | jint n => simp [loadSafe] at hsafe
  | jfloat q => simp [loadSafe] at hsafe
  | str s => simp [loadSafe] at hsafe
  | arr l => simp [loadSafe] at hsafe

/-- A legacy-shaped state document: `processed_files` as a list of
paths, a scalar `last_processed`, a string mtime, an unknown extra key. -/
def legacyStateDoc : Json :=
  .obj [("processed_files", .arr [.str "a.csv", .str "b.csv"]),
        ("last_processed", .str "stale"),
        ("last_processed_file_mtime", .str "7"),
        ("extra", .null)]

theorem load_state_normalizes_witness :
    loadSafe legacyStateDoc = true ∧
      ∃ out, load_state legacyStateDoc = .ok out ∧ isNormalized out = true :=
  ⟨rfl, load_state_normalizes legacyStateDoc rfl⟩

/-! ## Collector (`collect_new_tweets`) -/

/-- The two float epsilons of the collector on the microsecond grid:
the recency-cutoff slack `1e-6` seconds (line 227) and the
mtime-advance threshold `1e-3` seconds (line 237). -/
def EPS6 : ℤ := 1

def EPS3 : ℤ := 1000

/-- `SUMMARY_WINDOW_SECONDS` (3600 seconds) on the microsecond grid. -/
def SUMMARY_WINDOW : ℤ := 3600 * 1000000

/-- One row of `extract_tweets` output: the (nonempty) payload text, the
parsed optional timestamp, and the (possibly empty) id string. -/
structure Row where
  text : String
  posted : Option ℤ
  id : String
deriving DecidableEq

/-- A source CSV file as the collector sees it: resolved path,
modification time, extracted rows. -/
structure SrcFile where
  path : String
  mtime : ℤ
  rows : List Row
deriving DecidableEq

/-- A per-file cursor entry (`{"processed_rows": ..., "mtime": ...}`). -/
structure FileInfo where
  processed_rows : Nat
  mtime : ℤ
deriving DecidableEq

/-- The `last_processed` high-water mark.  `timestamp` is the parsed
datetime (`none` models an empty or unparseable timestamp string;
serialization round-trips exactly). -/
structure HWM where
  timestamp : Option ℤ
  ids : List String
  texts : List String
deriving DecidableEq

/-- The persisted pipeline state. -/
structure PState where
  processed_files : List (String × FileInfo)
  last_processed : HWM
  last_processed_file_mtime : ℤ
deriving DecidableEq

/-- Python `set.add` on a string set modelled as a duplicate-free list. -/
def setAdd (s : List String) (x : String) : List String :=
  if x ∈ s then s else s ++ [x]

/-- Lexicographic order on char lists (Python string comparison by code
point), written as a structurally computable Boolean. -/
def charListLe : List Char → List Char → Bool
  | [], _ => true
  | _ :: _, [] => false
  | a :: as, b :: bs => if a < b then true else if b < a then false else charListLe as bs

def strLe (a b : String) : Bool := charListLe a.data b.data

/-- Insertion into a `strLe`-sorted string list. -/
def sortedInsert (x : String) : List String → List String
  | [] => [x]
  | y :: ys => if strLe x y then x :: y :: ys else y :: sortedInsert x ys

/-- Python `sorted` on a set of strings. -/
def sortedList (l : List String) : List String :=
  l.foldr sortedInsert []

/-- Stable insertion by mtime (Python's `sorted(..., key=mtime)`). -/
def insertByMtime (f : SrcFile) : List SrcFile → List SrcFile
  | [] => [f]
  | g :: gs => if f.mtime ≤ g.mtime then f :: g :: gs else g :: insertByMtime f gs

def sortByMtime (files : List SrcFile) : List SrcFile :=
  files.foldr insertByMtime []

/-- The per-record discard decision of the collector loop (lines
249-259): a timestamped record against a non-empty high-water mark is
dropped when strictly older, and when exactly at the mark's timestamp
with its (nonempty) id or its text already recorded; a timestamp-less
record is dropped when the mark is non-empty and its text is already
recorded. -/
def discardRow (lastTimestamp : Option ℤ) (lastIds lastTexts : List String)
    (r : Row) : Bool :=
  match r.posted with
  | some t =>
    match lastTimestamp with
    | some lt =>
      if t < lt then true
      else if t = lt then
        (decide (r.id ≠ "") && decide (r.id ∈ lastIds)) || decide (r.text ∈ lastTexts)
      else false
    | none => false
  | none => lastTimestamp.isSome && decide (r.text ∈ lastTexts)

/-- The running state of the inner row loop (lines 248-272):
`recent_texts`, the running `max_timestamp` with its id/text sets, and
the `processed_any_timestamped` flag. -/
structure RowLoopSt where
  recent : List String
  maxTimestamp : Option ℤ
  idsMax : List String
  textsMax : List String
  anyTimestamped : Bool
deriving DecidableEq

/-- One iteration of the row loop (lines 249-272). -/
def rowStep (lastTimestamp : Option ℤ) (lastIds lastTexts : List String)
    (st : RowLoopSt) (r : Row) : RowLoopSt :=
  if discardRow lastTimestamp lastIds lastTexts r then st
  else
    let st1 := { st with recent := st.recent ++ [r.text] }
    match r.posted with
    | none => st1
    | some t =>
      let st2 := { st1 with anyTimestamped := true }
      match st2.maxTimestamp with
      | none =>
        { st2 with
          maxTimestamp := some t
          idsMax := if r.id ≠ "" then [r.id] else []
          textsMax := [r.text] }
      | some m =>
        if t > m then
          { st2 with
            maxTimestamp := some t
            idsMax := if r.id ≠ "" then [r.id] else []
            textsMax := [r.text] }
        else if t = m then
          { st2 with
            idsMax := if r.id ≠ "" then setAdd st2.idsMax r.id else st2.idsMax
            textsMax := setAdd st2.textsMax r.text }
        else st2

/-- The running state of the file loop. -/
structure LoopSt where
  tweets : List String
  touched : List String
  processed_map : List (String × FileInfo)
  maxMtime : ℤ
  rowSt : RowLoopSt
deriving DecidableEq

/-- The effective `processed_rows` for a file (lines 233-238): the
stored cursor, reset to 0 when the file's mtime advanced beyond the
stored mtime by more than the epsilon (missing entries default to
`{"processed_rows": 0, "mtime": 0.0}`). -/
def resetRows (m : List (String × FileInfo)) (f : SrcFile) : Nat :=
  if f.mtime > ((m.lookup f.path).getD ⟨0, 0⟩).mtime + EPS3 then 0
  else ((m.lookup f.path).getD ⟨0, 0⟩).processed_rows

/-- The row loop (lines 248-272) run over the file's new rows. -/
def fileRowResult (lastTimestamp : Option ℤ) (lastIds lastTexts : List String)
    (st : LoopSt) (f : SrcFile) : RowLoopSt :=
  (f.rows.drop (resetRows st.processed_map f)).foldl
    (rowStep lastTimestamp lastIds lastTexts) { st.rowSt with recent := [] }

/-- One iteration of the file loop (lines 220-281). -/
def fileStep (cutoff : ℤ) (lastTimestamp : Option ℤ)
    (lastIds lastTexts : List String) (st : LoopSt) (f : SrcFile) : LoopSt :=
  if f.mtime + EPS6 < cutoff then st
  else if f.rows.length ≤ resetRows st.processed_map f then
    { st with
      maxMtime := if f.mtime > st.maxMtime then f.mtime else st.maxMtime
      processed_map := objSet st.processed_map f.path ⟨f.rows.length, f.mtime⟩ }
  else if (fileRowResult lastTimestamp lastIds lastTexts st f).recent ≠ [] then
    { tweets := st.tweets ++ (fileRowResult lastTimestamp lastIds lastTexts st f).recent
      touched := st.touched ++ [f.path]
      processed_map := objSet st.processed_map f.path ⟨f.rows.length, f.mtime⟩
      maxMtime := if f.mtime > st.maxMtime then f.mtime else st.maxMtime
      rowSt := { fileRowResult lastTimestamp lastIds lastTexts st f with recent := [] } }
  else
    { st with
      maxMtime := if f.mtime > st.maxMtime then f.mtime else st.maxMtime
      processed_map := objSet st.processed_map f.path ⟨f.rows.length, f.mtime⟩
      rowSt := { fileRowResult lastTimestamp lastIds lastTexts st f with recent := [] } }

/-- The `effective_cutoff_ts` of line 218:
`max(time.time() - SUMMARY_WINDOW_SECONDS, last_file_mtime)`. -/
def collectCutoff (now : ℤ) (state : PState) : ℤ :=
  max (now - SUMMARY_WINDOW) state.last_processed_file_mtime

/-- `last_ids` of line 207: the stored ids as a set, empties dropped. -/
def collectLastIds (state : PState) : List String :=
  (state.last_processed.ids.filter (fun s => s ≠ "")).dedup

/-- `last_texts` of line 208. -/
def collectLastTexts (state : PState) : List String :=
  (state.last_processed.texts.filter (fun s => s ≠ "")).dedup

/-- The loop state before the file loop (lines 179-213):
`ids_for_max_timestamp`/`texts_for_max_timestamp` start from the stored
sets only when a stored timestamp exists. -/
def collectInit (state : PState) : LoopSt :=
  { tweets := []
    touched := []
    processed_map := state.processed_files
    maxMtime := state.last_processed_file_mtime
    rowSt :=
      { recent := []
        maxTimestamp := state.last_processed.timestamp
        idsMax := if state.last_processed.timestamp.isSome then collectLastIds state else []
        textsMax := if state.last_processed.timestamp.isSome then collectLastTexts state else []
        anyTimestamped := false } }

/-- The file loop (lines 215-281) run over the mtime-sorted files. -/
def collectFold (now : ℤ) (files : List SrcFile) (state : PState) : LoopSt :=
  (sortByMtime files).foldl
    (fileStep (collectCutoff now state) state.last_processed.timestamp
      (collectLastIds state) (collectLastTexts state))
    (collectInit state)

/-- Embedding of `collect_new_tweets` (lines 178-306): `now` is the
value of `time.time()`; `files` is the directory's CSV files (resolved
path, mtime, extracted rows).  Returns the collected texts, the touched
file paths, and the mutated state.  The dead `elif` at lines 295-302
(its guard implies the preceding `if`) is subsumed by the single write
condition; the cleanup loop of lines 283-286 is the `filter`. -/
def collect_new_tweets (now : ℤ) (files : List SrcFile) (state : PState) :
    List String × List String × PState :=
  ((collectFold now files state).tweets, (collectFold now files state).touched,
    { processed_files := (collectFold now files state).processed_map.filter
        (fun e => (files.map (fun f => f.path)).contains e.1)
      last_processed :=
        if (collectFold now files state).rowSt.maxTimestamp.isSome ∧
            ((collectFold now files state).rowSt.anyTimestamped = true ∨
              (collectFold now files state).rowSt.maxTimestamp ≠
                state.last_processed.timestamp)
        then
          { timestamp := (collectFold now files state).rowSt.maxTimestamp
            ids := sortedList (collectFold now files state).rowSt.idsMax
            texts := sortedList (collectFold now files state).rowSt.textsMax }
        else state.last_processed
      last_processed_file_mtime := (collectFold now files state).maxMtime })

theorem insertByMtime_perm (f : SrcFile) :
    ∀ l : List SrcFile, (insertByMtime f l).Perm (f :: l) := by
  intro l
  induction l with
  | nil => exact List.Perm.refl _
  | cons g gs ih =>
    rw [insertByMtime]
    by_cases h : f.mtime ≤ g.mtime
    · rw [if_pos h]
    · rw [if_neg h]
      exact (ih.cons g).trans (List.Perm.swap f g gs)

theorem sortByMtime_perm (files : List SrcFile) :
    (sortByMtime files).Perm files := by
  induction files with
  | nil => exact List.Perm.refl _
  | cons f fs ih =>
    exact (insertByMtime_perm f (sortByMtime fs)).trans (ih.cons f)

theorem mem_sortByMtime (files : List SrcFile) (f : SrcFile) :
    f ∈ sortByMtime files ↔ f ∈ files :=
  (sortByMtime_perm files).mem_iff

theorem sortByMtime_paths_nodup (files : List SrcFile)
    (h : (files.map (fun g => g.path)).Nodup) :
    ((sortByMtime files).map (fun g => g.path)).Nodup :=
  (((sortByMtime_perm files).map (fun g => g.path)).nodup_iff).mpr h

theorem lookup_none_iff {β : Type} (k : String) :
    ∀ m : List (String × β), m.lookup k = none ↔ k ∉ m.map Prod.fst := by
  intro m
  induction m with
  | nil => simp [List.lookup]
  | cons e t ih =>
    obtain ⟨e1, e2⟩ := e
    by_cases hke : (k == e1)
    · have : k = e1 := by simpa using hke
      subst this
      simp [List.lookup]
    · have hne : ¬ k = e1 := by simpa using hke
      simp only [List.lookup, hke, Bool.false_eq_true, if_false, ih,
        List.map_cons, List.mem_cons]
      constructor
      · intro h hmem
        rcases hmem with h1 | h1
        · exact hne h1
        · exact h h1
      · intro h hmem
        exact h (Or.inr hmem)

/-- Keys are unchanged by an in-place `objSet` update and extended by an
appending one, so key-uniqueness is preserved. -/
theorem objSet_keys_nodup {β : Type} (m : List (String × β)) (k : String) (v : β)
    (h : (m.map Prod.fst).Nodup) : ((objSet m k v).map Prod.fst).Nodup := by
  unfold objSet
  by_cases hs : (m.lookup k).isSome
  · rw [if_pos hs]
    have hkeys : (m.map (fun e => if e.1 = k then (k, v) else e)).map Prod.fst =
        m.map Prod.fst := by
      rw [List.map_map]
      apply List.map_congr_left
      intro e _
      by_cases he : e.1 = k
      · simp [Function.comp, he]
      · simp [Function.comp, he]
    rw [hkeys]
    exact h
  · rw [if_neg hs]
    have hnone : m.lookup k = none := by
      cases hm : m.lookup k with
      | none => rfl
      | some w => rw [hm] at hs; simp at hs
    have hnot : k ∉ m.map Prod.fst := (lookup_none_iff k m).mp hnone
    rw [List.map_append]
    simp only [List.map_cons, List.map_nil]
    refine List.Nodup.append h (List.nodup_singleton k) ?_
    intro a ha hb
    have hak : a = k := by simpa using hb
    exact hnot (hak ▸ ha)

/-- Updating an entry to the value it already holds is a no-op when keys
are unique. -/
theorem objSet_self_eq {β : Type} (k : String) (v : β) :
    ∀ m : List (String × β), (m.map Prod.fst).Nodup → m.lookup k = some v →
      objSet m k v = m := by
  intro m
  induction m with
  | nil => intro _ h; simp [List.lookup] at h
  | cons e t ih =>
    obtain ⟨e1, e2⟩ := e
    intro hnodup hlook
    rw [List.map_cons] at hnodup
    have hsome : (((e1, e2) :: t).lookup k).isSome := by rw [hlook]; rfl
    unfold objSet
    rw [if_pos hsome]
    by_cases hke : (k == e1)
    · have hk : k = e1 := by simpa using hke
      subst hk
      have hv : e2 = v := by
        simpa [List.lookup] using hlook
      subst hv
      have hnotin : k ∉ t.map Prod.fst := (List.nodup_cons.mp hnodup).1
      have hmap : t.map (fun e => if e.1 = k then (k, e2) else e) = t := by
        apply List.map_congr_left ?_ |>.trans (List.map_id t)
        intro e he
        have : e.1 ≠ k := fun hh => hnotin (hh ▸ List.mem_map_of_mem Prod.fst he)
        simp [this]
      simp [List.map_cons, hmap]
    · have hne : ¬ k = e1 := by simpa using hke
      have hlookt : t.lookup k = some v := by
        simpa [List.lookup, hke] using hlook
      have hnodupt : (t.map Prod.fst).Nodup := (List.nodup_cons.mp hnodup).2
      have hsomet : (t.lookup k).isSome := by rw [hlookt]; rfl
      have hrec := ih hnodupt hlookt
      unfold objSet at hrec
      rw [if_pos hsomet] at hrec
      have hne1 : ¬ e1 = k := fun hh => hne hh.symm
      simp only [List.map_cons, if_neg hne1, hrec]

/-- Filtering by a predicate that accepts every entry with key `k` does
not change the lookup of `k`. -/
theorem lookup_filter_of_key {β : Type} (pred : String × β → Bool) (k : String)
    (hpred : ∀ v, pred (k, v) = true) :
    ∀ m : List (String × β), (m.filter pred).lookup k = m.lookup k := by
  intro m
  induction m with
  | nil => rfl
  | cons e t ih =>
    obtain ⟨e1, e2⟩ := e
    by_cases hke : (k == e1)
    · have hk : k = e1 := by simpa using hke
      subst hk
      rw [List.filter_cons, if_pos (hpred e2)]
      simp [List.lookup]
    · by_cases hp : pred (e1, e2)
      · rw [List.filter_cons, if_pos hp]
        simp only [List.lookup, hke, Bool.false_eq_true, if_false, ih]
      · rw [List.filter_cons, if_neg (by simpa using hp)]
        simp only [List.lookup, hke, Bool.false_eq_true, if_false, ih]

/-- Case analysis of one file-loop iteration: the file is either skipped
by the recency cutoff (state unchanged) or examined, in which case its
cursor entry is set to the file's total row count and current mtime and
the running `max_processed_file_mtime` is raised to the file's mtime if
larger — regardless of which inner branch ran. -/
theorem fileStep_cases (cutoff : ℤ) (lastT : Option ℤ)
    (lastIds lastTexts : List String) (st : LoopSt) (f : SrcFile) :
    (f.mtime + EPS6 < cutoff ∧ fileStep cutoff lastT lastIds lastTexts st f = st) ∨
    (¬ f.mtime + EPS6 < cutoff ∧ ∃ tw tc rs,
      fileStep cutoff lastT lastIds lastTexts st f =
        { tweets := tw
          touched := tc
          processed_map := objSet st.processed_map f.path ⟨f.rows.length, f.mtime⟩
          maxMtime := if f.mtime > st.maxMtime then f.mtime else st.maxMtime
          rowSt := rs }) := by
  by_cases hskip : f.mtime + EPS6 < cutoff
  · exact Or.inl ⟨hskip, by unfold fileStep; rw [if_pos hskip]⟩
  · refine Or.inr ⟨hskip, ?_⟩
    unfold fileStep
    rw [if_neg hskip]
    by_cases hfast : f.rows.length ≤ resetRows st.processed_map f
    · rw [if_pos hfast]
      exact ⟨st.tweets, st.touched, st.rowSt, rfl⟩
    · rw [if_neg hfast]
      by_cases hrec : (fileRowResult lastT lastIds lastTexts st f).recent ≠ []
      · rw [if_pos hrec]
        exact ⟨_, _, _, rfl⟩
      · rw [if_neg hrec]
        exact ⟨st.tweets, st.touched, _, rfl⟩

theorem fileStep_lookup_self (cutoff : ℤ) (lastT : Option ℤ)
    (lastIds lastTexts : List String) (st : LoopSt) (f : SrcFile)
    (h : ¬ f.mtime + EPS6 < cutoff) :
    ((fileStep cutoff lastT lastIds lastTexts st f).processed_map.lookup f.path) =
      some ⟨f.rows.length, f.mtime⟩ := by
  rcases fileStep_cases cutoff lastT lastIds lastTexts st f with
    ⟨hs, _⟩ | ⟨_, tw, tc, rs, heq⟩
  · exact absurd hs h
  · rw [heq]
    exact lookup_objSet_self _ _ _

theorem fileStep_lookup_ne (cutoff : ℤ) (lastT : Option ℤ)
    (lastIds lastTexts : List String) (st : LoopSt) (f : SrcFile) (p : String)
    (hne : p ≠ f.path) :
    ((fileStep cutoff lastT lastIds lastTexts st f).processed_map.lookup p) =
      st.processed_map.lookup p := by
  rcases fileStep_cases cutoff lastT lastIds lastTexts st f with
    ⟨_, heq⟩ | ⟨_, tw, tc, rs, heq⟩
  · rw [heq]
  · rw [heq]
    exact lookup_objSet_ne _ _ _ _ hne

theorem fileStep_maxMtime_mono (cutoff : ℤ) (lastT : Option ℤ)
    (lastIds lastTexts : List String) (st : LoopSt) (f : SrcFile) :
    st.maxMtime ≤ (fileStep cutoff lastT lastIds lastTexts st f).maxMtime := by
  rcases fileStep_cases cutoff lastT lastIds lastTexts st f with
    ⟨_, heq⟩ | ⟨_, tw, tc, rs, heq⟩
  · rw [heq]
  · rw [heq]
    by_cases hm : f.mtime > st.maxMtime
    · simp only [if_pos hm]
      exact le_of_lt hm
    · simp only [if_neg hm]
      exact le_refl _

theorem fileStep_mtime_le (cutoff : ℤ) (lastT : Option ℤ)
    (lastIds lastTexts : List String) (st : LoopSt) (f : SrcFile)
    (h : ¬ f.mtime + EPS6 < cutoff) :
    f.mtime ≤ (fileStep cutoff lastT lastIds lastTexts st f).maxMtime := by
  rcases fileStep_cases cutoff lastT lastIds lastTexts st f with
    ⟨hs, _⟩ | ⟨_, tw, tc, rs, heq⟩
  · exact absurd hs h
  · rw [heq]
    by_cases hm : f.mtime > st.maxMtime
    · simp only [if_pos hm]
      exact le_refl _
    · simp only [if_neg hm]
      exact le_of_not_lt hm

theorem fileStep_keys_nodup (cutoff : ℤ) (lastT : Option ℤ)
    (lastIds lastTexts : List String) (st : LoopSt) (f : SrcFile)
    (h : (st.processed_map.map Prod.fst).Nodup) :
    (((fileStep cutoff lastT lastIds lastTexts st f).processed_map).map Prod.fst).Nodup := by
  rcases fileStep_cases cutoff lastT lastIds lastTexts st f with
    ⟨_, heq⟩ | ⟨_, tw, tc, rs, heq⟩
  · rw [heq]; exact h
  · rw [heq]
    exact objSet_keys_nodup _ _ _ h

theorem foldl_lookup_not_mem (cutoff : ℤ) (lastT : Option ℤ)
    (lastIds lastTexts : List String) :
    ∀ (L : List SrcFile) (st : LoopSt) (p : String), p ∉ L.map (fun g => g.path) →
      ((L.foldl (fileStep cutoff lastT lastIds lastTexts) st).processed_map.lookup p) =
        st.processed_map.lookup p := by
  intro L
  induction L with
  | nil => intro st p _; rfl
  | cons g L ih =>
    intro st p hp
    rw [List.map_cons, List.mem_cons] at hp
    push_neg at hp
    rw [List.foldl_cons, ih _ p hp.2]
    exact fileStep_lookup_ne cutoff lastT lastIds lastTexts st g p hp.1

theorem foldl_maxMtime_mono (cutoff : ℤ) (lastT : Option ℤ)
    (lastIds lastTexts : List String) :
    ∀ (L : List SrcFile) (st : LoopSt),
      st.maxMtime ≤ ((L.foldl (fileStep cutoff lastT lastIds lastTexts) st).maxMtime) := by
  intro L
  induction L with
  | nil => intro st; exact le_refl _
  | cons g L ih =>
    intro st
    rw [List.foldl_cons]
    exact le_trans (fileStep_maxMtime_mono cutoff lastT lastIds lastTexts st g) (ih _)

theorem foldl_mtime_le (cutoff : ℤ) (lastT : Option ℤ)
    (lastIds lastTexts : List String) :
    ∀ (L : List SrcFile) (st : LoopSt) (f : SrcFile), f ∈ L →
      ¬ f.mtime + EPS6 < cutoff →
      f.mtime ≤ ((L.foldl (fileStep cutoff lastT lastIds lastTexts) st).maxMtime) := by
  intro L
  induction L with
  | nil => intro st f hf _; simp at hf
  | cons g L ih =>
    intro st f hf hkept
    rw [List.foldl_cons]
    rcases List.mem_cons.mp hf with heq | hmem
    · subst heq
      exact le_trans (fileStep_mtime_le cutoff lastT lastIds lastTexts st f hkept)
        (foldl_maxMtime_mono cutoff lastT lastIds lastTexts L _)
    · exact ih _ f hmem hkept

theorem foldl_keys_nodup (cutoff : ℤ) (lastT : Option ℤ)
    (lastIds lastTexts : List String) :
    ∀ (L : List SrcFile) (st : LoopSt), (st.processed_map.map Prod.fst).Nodup →
      (((L.foldl (fileStep cutoff lastT lastIds lastTexts) st).processed_map).map
        Prod.fst).Nodup := by
  intro L
  induction L with
  | nil => intro st h; exact h
  | cons g L ih =>
    intro st h
    rw [List.foldl_cons]
    exact ih _ (fileStep_keys_nodup cutoff lastT lastIds lastTexts st g h)

/-- After the file loop, an examined file's cursor entry is exactly its
total row count and current mtime. -/
theorem foldl_lookup_kept (cutoff : ℤ) (lastT : Option ℤ)
    (lastIds lastTexts : List String) :
    ∀ (L : List SrcFile) (st : LoopSt) (f : SrcFile), f ∈ L →
      ((L.map (fun g => g.path)).Nodup) → ¬ f.mtime + EPS6 < cutoff →
      ((L.foldl (fileStep cutoff lastT lastIds lastTexts) st).processed_map.lookup f.path) =
        some ⟨f.rows.length, f.mtime⟩ := by
  intro L
  induction L with
  | nil => intro st f hf _ _; simp at hf
  | cons g L ih =>
    intro st f hf hnodup hkept
    rw [List.map_cons] at hnodup
    rw [List.foldl_cons]
    rcases List.mem_cons.mp hf with heq | hmem
    · subst heq
      rw [foldl_lookup_not_mem cutoff lastT lastIds lastTexts L _ f.path
        (List.nodup_cons.mp hnodup).1]
      exact fileStep_lookup_self cutoff lastT lastIds lastTexts st f hkept
    · exact ih _ f hmem (List.nodup_cons.mp hnodup).2 hkept

/-- After the file loop, a cutoff-skipped file's cursor entry is
whatever it was before the loop. -/
theorem foldl_lookup_skipped (cutoff : ℤ) (lastT : Option ℤ)
    (lastIds lastTexts : List String) :
    ∀ (L : List SrcFile) (st : LoopSt) (f : SrcFile), f ∈ L →
      ((L.map (fun g => g.path)).Nodup) → f.mtime + EPS6 < cutoff →
      ((L.foldl (fileStep cutoff lastT lastIds lastTexts) st).processed_map.lookup f.path) =
        st.processed_map.lookup f.path := by
  intro L
  induction L with
  | nil => intro st f hf _ _; simp at hf
  | cons g L ih =>
    intro st f hf hnodup hskip
    rw [List.map_cons] at hnodup
    rw [List.foldl_cons]
    rcases List.mem_cons.mp hf with heq | hmem
    · subst heq
      rw [foldl_lookup_not_mem cutoff lastT lastIds lastTexts L _ f.path
        (List.nodup_cons.mp hnodup).1]
      rcases fileStep_cases cutoff lastT lastIds lastTexts st f with
        ⟨_, heq2⟩ | ⟨hk, _⟩
      · rw [heq2]
      · exact absurd hskip hk
    · have hne : f.path ≠ g.path := by
        intro hh
        exact (List.nodup_cons.mp hnodup).1
          (hh ▸ List.mem_map_of_mem (fun s => s.path) hmem)
      rw [ih _ f hmem (List.nodup_cons.mp hnodup).2 hskip]
      exact fileStep_lookup_ne cutoff lastT lastIds lastTexts st g f.path hne

/-- A file whose stored cursor is 5 with mtime 100, rewritten in place
(mtime still 100) to hold only 2 rows. -/
def shrinkState : PState :=
  { processed_files := [("a.csv", ⟨5, 100⟩)]
    last_processed := { timestamp := none, ids := [], texts := [] }
    last_processed_file_mtime := 0 }

def shrinkFile : SrcFile :=
  { path := "a.csv", mtime := 100, rows := [⟨"r1", none, ""⟩, ⟨"r2", none, ""⟩] }

/-- Claim C2, counterexample: for a file whose mtime is unchanged (equal
to the stored cursor mtime, hence within the epsilon) but whose contents
hold fewer rows (2) than the stored cursor (5), a run of
`collect_new_tweets` rewrites the cursor to the current total row count:
the stored `processed_rows` drops from 5 to 2 — the row-count cursor
does decrease for an mtime-unchanged file. -/
theorem cursor_decreases_on_shrunk_file :
    shrinkState.processed_files.lookup "a.csv" = some ⟨5, 100⟩ ∧
      shrinkFile.mtime = 100 ∧ shrinkFile.rows.length = 2 ∧
      (collect_new_tweets 100 [shrinkFile] shrinkState).2.2.processed_files.lookup
          "a.csv" = some ⟨2, 100⟩ ∧
      (2 : Nat) < 5 := by
  decide

/-- Claim C2, amended: for a file whose modification time is unchanged
between two runs (current mtime not beyond the stored cursor mtime by
more than the epsilon) and whose current row count is at least the
stored cursor, the stored `processed_rows` cursor after the run is
greater than or equal to its value before it.  (Without the row-count
hypothesis the cursor is rewritten to the current total row count, which
can be smaller — see the counterexample.) -/
theorem cursor_monotone_of_rows_not_shrunk (now : ℤ) (files : List SrcFile)
    (state : PState) (f : SrcFile) (info : FileInfo)
    (hnodup : (files.map (fun g => g.path)).Nodup)
    (hmem : f ∈ files)
    (hlook : state.processed_files.lookup f.path = some info)
    (hmtime : f.mtime ≤ info.mtime + EPS3)
    (hrows : info.processed_rows ≤ f.rows.length) :
    ∃ info', (collect_new_tweets now files state).2.2.processed_files.lookup f.path =
        some info' ∧ info.processed_rows ≤ info'.processed_rows := by
  have hpath : f.path ∈ files.map (fun g => g.path) :=
    List.mem_map_of_mem (fun g => g.path) hmem
  have hcontains : ∀ v : FileInfo,
      ((fun e : String × FileInfo => (files.map (fun g => g.path)).contains e.1)
        (f.path, v)) = true := by
    intro v
    simpa using hpath
  have hfilter :
      (collect_new_tweets now files state).2.2.processed_files.lookup f.path =
        ((collectFold now files state).processed_map.lookup f.path) :=
    lookup_filter_of_key _ f.path hcontains _
  have hmem' : f ∈ sortByMtime files := (mem_sortByMtime files f).mpr hmem
  have hnodup' := sortByMtime_paths_nodup files hnodup
  rw [hfilter]
  by_cases hkept : f.mtime + EPS6 < collectCutoff now state
  · refine ⟨info, ?_, le_refl _⟩
    rw [collectFold, foldl_lookup_skipped _ _ _ _ _ _ f hmem' hnodup' hkept]
    exact hlook
  · refine ⟨⟨f.rows.length, f.mtime⟩, ?_, hrows⟩
    rw [collectFold, foldl_lookup_kept _ _ _ _ _ _ f hmem' hnodup' hkept]

theorem cursor_monotone_of_rows_not_shrunk_witness :
    ∃ info',
      (collect_new_tweets 100 [⟨"b.csv", 100, [⟨"r1", none, ""⟩, ⟨"r2", none, ""⟩]⟩]
          { processed_files := [("b.csv", ⟨1, 100⟩)]
            last_processed := { timestamp := none, ids := [], texts := [] }
            last_processed_file_mtime := 0 }).2.2.processed_files.lookup "b.csv" =
        some info' ∧ (1 : Nat) ≤ info'.processed_rows :=
  cursor_monotone_of_rows_not_shrunk 100
    [⟨"b.csv", 100, [⟨"r1", none, ""⟩, ⟨"r2", none, ""⟩]⟩]
    { processed_files := [("b.csv", ⟨1, 100⟩)]
      last_processed := { timestamp := none, ids := [], texts := [] }
      last_processed_file_mtime := 0 }
    ⟨"b.csv", 100, [⟨"r1", none, ""⟩, ⟨"r2", none, ""⟩]⟩ ⟨1, 100⟩
    (by decide) (by decide) (by decide) (by decide) (by decide)

theorem filter_keys_nodup {β : Type} (p : String × β → Bool)
    (m : List (String × β)) (h : (m.map Prod.fst).Nodup) :
    ((m.filter p).map Prod.fst).Nodup :=
  h.sublist ((List.filter_sublist m).map Prod.fst)

/-- A file whose cursor already records its current row count and mtime,
and whose mtime does not exceed the running maximum, leaves the loop
state untouched (the fast path of lines 243-245 with an unchanged
entry). -/
theorem fileStep_inert (cutoff : ℤ) (lastT : Option ℤ)
    (lastIds lastTexts : List String) (st : LoopSt) (f : SrcFile)
    (hnodup : (st.processed_map.map Prod.fst).Nodup)
    (h : ¬ f.mtime + EPS6 < cutoff →
      st.processed_map.lookup f.path = some ⟨f.rows.length, f.mtime⟩ ∧
        f.mtime ≤ st.maxMtime) :
    fileStep cutoff lastT lastIds lastTexts st f = st := by
  by_cases hskip : f.mtime + EPS6 < cutoff
  · unfold fileStep
    rw [if_pos hskip]
  · obtain ⟨hlook, hle⟩ := h hskip
    unfold fileStep
    rw [if_neg hskip]
    have hreset : resetRows st.processed_map f = f.rows.length := by
      unfold resetRows
      rw [hlook]
      have hcond : ¬ f.mtime >
          (Option.getD (some (⟨f.rows.length, f.mtime⟩ : FileInfo)) ⟨0, 0⟩).mtime + EPS3 := by
        simp only [Option.getD_some]
        unfold EPS3
        omega
      rw [if_neg hcond]
      rfl
    have hfast : f.rows.length ≤ resetRows st.processed_map f := by
      rw [hreset]
    rw [if_pos hfast]
    have hmax : (if f.mtime > st.maxMtime then f.mtime else st.maxMtime) = st.maxMtime :=
      if_neg (not_lt.mpr hle)
    have hobj : objSet st.processed_map f.path ⟨f.rows.length, f.mtime⟩ =
        st.processed_map :=
      objSet_self_eq f.path ⟨f.rows.length, f.mtime⟩ st.processed_map hnodup hlook
    rw [hmax, hobj]

/-- A file loop all of whose files are either cutoff-skipped or already
recorded leaves the loop state untouched. -/
theorem foldl_inert (cutoff : ℤ) (lastT : Option ℤ)
    (lastIds lastTexts : List String) :
    ∀ (L : List SrcFile) (st : LoopSt),
      (st.processed_map.map Prod.fst).Nodup →
      (∀ f ∈ L, ¬ f.mtime + EPS6 < cutoff →
        st.processed_map.lookup f.path = some ⟨f.rows.length, f.mtime⟩ ∧
          f.mtime ≤ st.maxMtime) →
      L.foldl (fileStep cutoff lastT lastIds lastTexts) st = st := by
  intro L
  induction L with
  | nil => intro st _ _; rfl
  | cons g L ih =>
    intro st hnodup h
    rw [List.foldl_cons,
      fileStep_inert cutoff lastT lastIds lastTexts st g hnodup
        (h g (List.mem_cons_self g L))]
    exact ih st hnodup (fun f hf => h f (List.mem_cons_of_mem g hf))

/-- Claim C3: running `collect_new_tweets` a second time on the state
produced by a first run, with the source directory unchanged in between
(same files, same contents, same modification times) and the clock not
moving backwards, returns an empty list of records and leaves the
high-water mark — in fact the whole persisted state — exactly as the
first run left it. -/
theorem collect_idempotent (now1 now2 : ℤ) (files : List SrcFile) (state0 : PState)
    (hnodup : (files.map (fun g => g.path)).Nodup)
    (hkeys : (state0.processed_files.map Prod.fst).Nodup)
    (hnow : now1 ≤ now2) :
    (collect_new_tweets now2 files ((collect_new_tweets now1 files state0).2.2)).1
        = [] ∧
      (collect_new_tweets now2 files
          ((collect_new_tweets now1 files state0).2.2)).2.2.last_processed =
        ((collect_new_tweets now1 files state0).2.2).last_processed ∧
      (collect_new_tweets now2 files ((collect_new_tweets now1 files state0).2.2)).2.2
        = (collect_new_tweets now1 files state0).2.2 := by
  set state1 := (collect_new_tweets now1 files state0).2.2 with hstate1
  have hnodup' := sortByMtime_paths_nodup files hnodup
  have h1pf : state1.processed_files =
      (collectFold now1 files state0).processed_map.filter
        (fun e => (files.map (fun f => f.path)).contains e.1) := rfl
  have h1lfm : state1.last_processed_file_mtime =
      (collectFold now1 files state0).maxMtime := rfl
  have h1keys : (state1.processed_files.map Prod.fst).Nodup := by
    rw [h1pf]
    exact filter_keys_nodup _ _ (foldl_keys_nodup _ _ _ _ _ _ hkeys)
  have hlfm_mono : state0.last_processed_file_mtime ≤
      state1.last_processed_file_mtime := by
    rw [h1lfm]
    exact foldl_maxMtime_mono _ _ _ _ _ (collectInit state0)
  have hcut : collectCutoff now1 state0 ≤ collectCutoff now2 state1 := by
    unfold collectCutoff
    exact max_le_max (sub_le_sub_right hnow _) hlfm_mono
  have hkept12 : ∀ f : SrcFile, ¬ f.mtime + EPS6 < collectCutoff now2 state1 →
      ¬ f.mtime + EPS6 < collectCutoff now1 state0 :=
    fun f h2 h1 => h2 (lt_of_lt_of_le h1 hcut)
  have hentry : ∀ f ∈ files, ¬ f.mtime + EPS6 < collectCutoff now1 state0 →
      state1.processed_files.lookup f.path = some ⟨f.rows.length, f.mtime⟩ := by
    intro f hf hkept
    rw [h1pf, lookup_filter_of_key _ f.path
      (fun v => by simpa using List.mem_map_of_mem (fun g => g.path) hf)]
    exact foldl_lookup_kept _ _ _ _ _ _ f ((mem_sortByMtime files f).mpr hf)
      hnodup' hkept
  have hbound : ∀ f ∈ files, ¬ f.mtime + EPS6 < collectCutoff now1 state0 →
      f.mtime ≤ state1.last_processed_file_mtime := by
    intro f hf hkept
    rw [h1lfm]
    exact foldl_mtime_le _ _ _ _ _ _ f ((mem_sortByMtime files f).mpr hf) hkept
  have hfold2 : collectFold now2 files state1 = collectInit state1 := by
    unfold collectFold
    apply foldl_inert
    · exact h1keys
    · intro f hf hkept2
      have hf' : f ∈ files := (mem_sortByMtime files f).mp hf
      have hkept1 := hkept12 f hkept2
      exact ⟨hentry f hf' hkept1, hbound f hf' hkept1⟩
  have hfilter : state1.processed_files.filter
      (fun e => (files.map (fun f => f.path)).contains e.1) =
      state1.processed_files := by
    apply List.filter_eq_self.mpr
    intro e he
    rw [h1pf] at he
    exact (List.mem_filter.mp he).2
  have htweets : (collect_new_tweets now2 files state1).1 = [] := by
    show (collectFold now2 files state1).tweets = []
    rw [hfold2]
    rfl
  have h2pf : (collect_new_tweets now2 files state1).2.2.processed_files =
      state1.processed_files := by
    show ((collectFold now2 files state1).processed_map.filter
        (fun e => (files.map (fun f => f.path)).contains e.1)) = state1.processed_files
    rw [hfold2]
    exact hfilter
  have h2lp : (collect_new_tweets now2 files state1).2.2.last_processed =
      state1.last_processed := by
    show (if (collectFold now2 files state1).rowSt.maxTimestamp.isSome ∧
          ((collectFold now2 files state1).rowSt.anyTimestamped = true ∨
            (collectFold now2 files state1).rowSt.maxTimestamp ≠
              state1.last_processed.timestamp)
        then
          ({ timestamp := (collectFold now2 files state1).rowSt.maxTimestamp
             ids := sortedList (collectFold now2 files state1).rowSt.idsMax
             texts := sortedList (collectFold now2 files state1).rowSt.textsMax } : HWM)
        else state1.last_processed) = state1.last_processed
    rw [hfold2]
    rw [if_neg]
    rintro ⟨_, hany | hne⟩
    · exact Bool.noConfusion hany
    · exact hne rfl
  have h2lfm : (collect_new_tweets now2 files state1).2.2.last_processed_file_mtime =
      state1.last_processed_file_mtime := by
    show (collectFold now2 files state1).maxMtime = state1.last_processed_file_mtime
    rw [hfold2]
    rfl
  have hstateeq : (collect_new_tweets now2 files state1).2.2 = state1 := by
    cases hh : (collect_new_tweets now2 files state1).2.2 with
    | mk a b c =>
      rw [hh] at h2pf h2lp h2lfm
      rw [show (PState.mk a b c).processed_files = a from rfl] at h2pf
      rw [show (PState.mk a b c).last_processed = b from rfl] at h2lp
      rw [show (PState.mk a b c).last_processed_file_mtime = c from rfl] at h2lfm
      rw [h2pf, h2lp, h2lfm]
  exact ⟨htweets, by rw [hstateeq], hstateeq⟩


/-- Scenario D of the spec: high-water mark at `T = 1000` with id set
`{"42"}`; one file carrying two records at `T`, ids `"42"` and `"43"`. -/
def scenarioState : PState :=
  { processed_files := []
    last_processed := { timestamp := some 1000, ids := ["42"], texts := [] }
    last_processed_file_mtime := 0 }

def scenarioFile : SrcFile :=
  { path := "f.csv"
    mtime := 100
    rows := [⟨"alpha", some 1000, "42"⟩, ⟨"beta", some 1000, "43"⟩] }

/-- Claim C1: for every timestamped candidate record examined by
`collect_new_tweets` against a non-empty high-water mark: a record whose
timestamp is strictly before the mark's timestamp is always discarded;
a record whose timestamp equals the mark's timestamp is discarded if and
only if its identifier is already in the mark's id set or its payload
text is already in the mark's text set (the id sets the collector builds
and loads never contain the empty string, which is the stated
hypothesis); in particular, in Scenario D a record at timestamp `T` with
id `"42"` already in the id set is discarded while one at `T` with fresh
id `"43"` is retained, and `"43"` is added to the id set recorded for
`T`. -/
theorem collect_hwm_filter_scenario :
    (∀ (lt : ℤ) (ids texts : List String) (r : Row) (t : ℤ),
      "" ∉ ids → r.posted = some t →
        ((t < lt → discardRow (some lt) ids texts r = true) ∧
          (t = lt → (discardRow (some lt) ids texts r = true ↔
            r.id ∈ ids ∨ r.text ∈ texts)))) ∧
      collect_new_tweets 100 [scenarioFile] scenarioState =
        (["beta"], ["f.csv"],
          { processed_files := [("f.csv", ⟨2, 100⟩)]
            last_processed :=
              { timestamp := some 1000, ids := ["42", "43"], texts := ["beta"] }
            last_processed_file_mtime := 100 }) := by
  constructor
  · intro lt ids texts r t hids hposted
    constructor
    · intro hlt
      simp [discardRow, hposted, if_pos hlt]
    · intro heq
      subst heq
      have hd : discardRow (some t) ids texts r =
          ((decide (r.id ≠ "") && decide (r.id ∈ ids)) || decide (r.text ∈ texts)) := by
        simp [discardRow, hposted]
      rw [hd]
      simp only [Bool.or_eq_true, Bool.and_eq_true, decide_eq_true_eq]
      constructor
      · rintro (⟨_, h⟩ | h)
        · exact Or.inl h
        · exact Or.inr h
      · rintro (h | h)
        · exact Or.inl ⟨fun he => hids (he ▸ h), h⟩
        · exact Or.inr h
  · decide

theorem collect_hwm_filter_scenario_witness :
    ("" ∉ ["42"] ∧ (⟨"beta", some 1000, "43"⟩ : Row).posted = some 1000) ∧
      (((1000 : ℤ) < 1000 → discardRow (some 1000) ["42"] [] ⟨"beta", some 1000, "43"⟩ = true) ∧
        ((1000 : ℤ) = 1000 →
          (discardRow (some 1000) ["42"] [] ⟨"beta", some 1000, "43"⟩ = true ↔
            ("43" : String) ∈ ["42"] ∨ ("beta" : String) ∈ ([] : List String)))) :=
  ⟨⟨by decide, rfl⟩,
    collect_hwm_filter_scenario.1 1000 ["42"] [] ⟨"beta", some 1000, "43"⟩ 1000
      (by decide) rfl⟩

theorem collect_idempotent_witness :
    (collect_new_tweets 200 [scenarioFile]
        ((collect_new_tweets 100 [scenarioFile] scenarioState).2.2)).1 = [] ∧
      (collect_new_tweets 200 [scenarioFile]
          ((collect_new_tweets 100 [scenarioFile] scenarioState).2.2)).2.2.last_processed =
        ((collect_new_tweets 100 [scenarioFile] scenarioState).2.2).last_processed ∧
      (collect_new_tweets 200 [scenarioFile]
          ((collect_new_tweets 100 [scenarioFile] scenarioState).2.2)).2.2 =
        (collect_new_tweets 100 [scenarioFile] scenarioState).2.2 :=
  collect_idempotent 100 200 [scenarioFile] scenarioState (by decide) (by decide)
    (by decide)

/-! ## Orchestrator (`main`) -/

/-- Externally visible effects of one `main` run, in order. -/
inductive Effect where
  | savedState
  | feedUpdated (summary : String)
  | emailed (summary : String)
  | archived
deriving DecidableEq

/-- The environment of one `main` run: the outcomes of the
collaborators.  `collectResult` is the outcome of `collect_new_tweets`
(an exception while scanning is an `error`); `chunkCall i c` is the
summarization call for 1-based chunk `i`; `compressLlm` drives
`compress_summaries_for_overall`; `overallCall` is the final synthesis
call; `emailResult` and `archiveResult` are the delivery and archival
collaborators, which may raise.  `update_static_feed` catches all its
errors (lines 481-516) and is modelled as non-raising. -/
structure MainEnv where
  collectResult : Except String (List String × List String)
  chunkCall : Nat → List String → Except String String
  compressLlm : LlmOracle
  overallCall : List String → Except String String
  emailResult : String → Except String Unit
  archiveResult : Except String Unit

/-- The fixed failure-report message of line 734. -/
def FAILURE_MESSAGE : String :=
  "hourly summary failed: no chunk analysis succeeded, retry later"

/-- The label prepended to the fallback concatenation when the final
synthesis call fails (lines 755-762; the per-summary numbering of the
concatenation is immaterial to every claim). -/
def fallbackOverall (compressed : List String) : String :=
  "automatic synthesis failed, concatenated merged summaries follow\n\n" ++
    String.intercalate "\n\n" compressed

/-- The chunk-summarization loop of lines 721-730: `enumerate` from 1,
empty chunks skipped by the guard, failed calls dropped with a warning. -/
def chunkSummaries (call : Nat → List String → Except String String) :
    Nat → List (List String) → List String
  | _, [] => []
  | idx, chunk :: rest =>
    if chunk = [] then chunkSummaries call (idx + 1) rest
    else
      match call idx chunk with
      | .ok s => s :: chunkSummaries call (idx + 1) rest
      | .error _ => chunkSummaries call (idx + 1) rest

/-- The feed-update / delivery / archive tail shared by the
failure-report branch (lines 736-745) and the normal branch (lines
764-773): the email invocation is recorded before its outcome is
consulted, and an exception from delivery or archival propagates. -/
def deliverAndArchive (env : MainEnv) (summary : String) :
    Except String Unit × List Effect :=
  match env.emailResult summary with
  | .error e => (.error e, [.feedUpdated summary, .emailed summary])
  | .ok _ =>
    match env.archiveResult with
    | .error e => (.error e, [.feedUpdated summary, .emailed summary, .archived])
    | .ok _ => (.ok (), [.feedUpdated summary, .emailed summary, .archived])

/-- The body of `main`'s `try` block (lines 700-773). -/
def mainBody (env : MainEnv) : Except String Unit × List Effect :=
  match env.collectResult with
  | .error e => (.error e, [])
  | .ok (tweets, _touched) =>
    if tweets = [] then (.ok (), [])
    else if deduplicate_tweets tweets = [] then (.ok (), [])
    else
      match chunkSummaries env.chunkCall 1
        (chunk_tweets (deduplicate_tweets tweets) CHUNK_CHAR_LIMIT) with
      | [] => deliverAndArchive env FAILURE_MESSAGE
      | [only] => deliverAndArchive env only
      | s1 :: s2 :: rest =>
        match env.overallCall
          (compress_summaries_for_overall env.compressLlm (s1 :: s2 :: rest)) with
        | .ok final => deliverAndArchive env final
        | .error _ =>
          deliverAndArchive env
            (fallbackOverall
              (compress_summaries_for_overall env.compressLlm (s1 :: s2 :: rest)))

/-- Embedding of `main` (lines 697-777): the `try`/`finally` persists
the state on every exit path, normal or exceptional. -/
def main (env : MainEnv) : Except String Unit × List Effect :=
  ((mainBody env).1, (mainBody env).2 ++ [.savedState])

/-- Claim C9: on every exit path of `main` — normal completion, the
zero-new-records early return, the all-chunks-failed failure-report
branch, the failed-final-synthesis fallback branch, and any exception
raised after collection — the state is persisted (`save_state` runs, as
the final effect) before the run ends; and whenever collection produced
at least one record the delivery collaborator is invoked with whatever
final summary text was produced, on every failure branch included. -/
theorem main_persists_and_delivers (env : MainEnv) :
    ((main env).2.getLast? = some Effect.savedState) ∧
      (∀ tweets touched, env.collectResult = .ok (tweets, touched) → tweets ≠ [] →
        ∃ s, Effect.emailed s ∈ (main env).2) := by
  have hdeliver : ∀ s, Effect.emailed s ∈ (deliverAndArchive env s).2 := by
    intro s
    unfold deliverAndArchive
    cases env.emailResult s with
    | error e => simp
    | ok u =>
      cases env.archiveResult with
      | error e => simp
      | ok u2 => simp
  constructor
  · show ((mainBody env).2 ++ [Effect.savedState]).getLast? = some Effect.savedState
    exact List.getLast?_concat _
  · intro tweets touched hc hne
    have hd2 : ¬ deduplicate_tweets tweets = [] := by
      simpa [deduplicate_tweets, List.dedup_eq_nil] using hne
    have hmem : ∃ s, Effect.emailed s ∈ (mainBody env).2 := by
      unfold mainBody
      rw [hc]
      simp only [if_neg hne, if_neg hd2]
      cases hs : chunkSummaries env.chunkCall 1
        (chunk_tweets (deduplicate_tweets tweets) CHUNK_CHAR_LIMIT) with
      | nil => exact ⟨FAILURE_MESSAGE, hdeliver _⟩
      | cons s1 rest =>
        cases rest with
        | nil => exact ⟨s1, hdeliver _⟩
        | cons s2 rest2 =>
          show ∃ s, Effect.emailed s ∈
            (match env.overallCall
                (compress_summaries_for_overall env.compressLlm (s1 :: s2 :: rest2)) with
              | Except.ok final => deliverAndArchive env final
              | Except.error _ =>
                deliverAndArchive env
                  (fallbackOverall
                    (compress_summaries_for_overall env.compressLlm
                      (s1 :: s2 :: rest2)))).2
          cases ho : env.overallCall
            (compress_summaries_for_overall env.compressLlm (s1 :: s2 :: rest2)) with
          | ok final => exact ⟨final, by simpa using hdeliver final⟩
          | error e =>
            exact ⟨fallbackOverall
                (compress_summaries_for_overall env.compressLlm (s1 :: s2 :: rest2)),
              by simpa using hdeliver (fallbackOverall
                (compress_summaries_for_overall env.compressLlm (s1 :: s2 :: rest2)))⟩
    obtain ⟨s, hs⟩ := hmem
    exact ⟨s, List.mem_append_left _ hs⟩

/-- An environment in which every chunk call fails, delivery succeeds. -/
def envAllChunksFail : MainEnv :=
  { collectResult := .ok (["t1", "t2"], ["f.csv"])
    chunkCall := fun _ _ => .error "boom"
    compressLlm := llmFailAll
    overallCall := fun _ => .error "boom"
    emailResult := fun _ => .ok ()
    archiveResult := .ok () }

theorem main_persists_and_delivers_witness :
    ((main envAllChunksFail).2.getLast? = some Effect.savedState) ∧
      ∃ s, Effect.emailed s ∈ (main envAllChunksFail).2 :=
  ⟨(main_persists_and_delivers envAllChunksFail).1,
    (main_persists_and_delivers envAllChunksFail).2 ["t1", "t2"] ["f.csv"] rfl
      (by decide)⟩

end TweetPipeline
